import Mathlib

/-!
Nyx task-graph scheduler: verified model

A shallow embedding of the Nyx orchestrator core (TypeScript sources
`src/core/taskGraph.ts`, `src/core/agents/plannerAgent.ts`,
`src/core/agents/workerAgent.ts`, `src/core/tools/lockManager.ts`) together
with proofs of the behavioural properties stated in the project
specification.

Modelling conventions:
* TypeScript numbers used as task ids are modelled as `Nat`; the LLM-facing
  plan ids (which may be arbitrary JSON values) are modelled by `JVal`.
* Mutable classes become immutable values threaded through functions;
  a method that mutates `this` returns the updated value.
* `async`/`await` scheduling, logging, event emission and timers carry no
  task-graph state and are dropped; the waits performed by the execution
  loop are recorded as trace events (`IterEvent`) so that timing-related
  claims (backoff amounts, number of waits) remain statable.
* Exceptions become `Except String` results; the unbounded `while` loops
  become fuel-indexed recursions, with the fuel needed for faithfulness
  established by theorems (`kahnRun_spec`, and concrete evaluations
  for the execution loop).
-/

set_option maxRecDepth 4096
deriving instance DecidableEq for Except

namespace Nyx

/-- Model of `TaskStatus` from `src/core/agents/task.ts`:
`'pending' | 'in_progress' | 'completed' | 'failed'`. -/
inductive TaskStatus where
  | pending
  | in_progress
  | completed
  | failed
deriving DecidableEq, Repr

/-- Model of `TaskResult` from `workerAgent.ts`:
`{ success: boolean; message?: string; artifacts?: string[]; output?: string }`. -/
structure TaskResult where
  success : Bool
  message : Option String
  artifacts : Option (List String)
  output : Option String
deriving DecidableEq, Repr

/-- The value stored in `Task.result`.  The orchestrator stores either a
`TaskResult` (normal executor completion) or an `{ error: message }` object
(executor exception path). -/
inductive StoredResult where
  | res (r : TaskResult)
  | err (msg : String)
deriving DecidableEq, Repr

/-- Model of `Task` from `src/core/agents/task.ts`.  `retries?` is optional in the
interface but is always initialised to `0` by `TaskGraph.addTask` and read
with `?? 0`, so it is modelled as a total `Nat`. -/
structure Task where
  id : Nat
  description : String
  dependsOn : List Nat
  status : TaskStatus
  result : Option StoredResult
  retries : Nat
deriving DecidableEq, Repr

/-- Model of `TaskGraph` from `src/core/taskGraph.ts`.  The class keeps both a
`tasks` array and a `taskMap : Map<number, Task>` aliasing the same task
objects; since ids handed out by `addTask` are unique, the map is recovered
here as first-match lookup in the insertion-ordered list. -/
structure TaskGraph where
  tasks : List Task
  nextTaskId : Nat
deriving DecidableEq, Repr

/-- Model of `new TaskGraph()`. -/
def TaskGraph.empty : TaskGraph := ⟨[], 1⟩

/-- Model of `TaskGraph.addTask(description, dependsOn = [])`. -/
def TaskGraph.addTask (g : TaskGraph) (description : String)
    (dependsOn : List Nat) : Task × TaskGraph :=
  let newTask : Task :=
    { id := g.nextTaskId, description := description, dependsOn := dependsOn,
      status := .pending, result := none, retries := 0 }
  (newTask, { tasks := g.tasks ++ [newTask], nextTaskId := g.nextTaskId + 1 })

/-- Model of `TaskGraph.getTask(taskId)` — `this.taskMap.get(taskId)`. -/
def TaskGraph.getTask (g : TaskGraph) (taskId : Nat) : Option Task :=
  g.tasks.find? (fun t => t.id = taskId)

/-- Model of `TaskGraph.getAllTasks()` (returns a copy of the array). -/
def TaskGraph.getAllTasks (g : TaskGraph) : List Task := g.tasks

/-- Model of `TaskGraph.getPendingTasks()`. -/
def TaskGraph.getPendingTasks (g : TaskGraph) : List Task :=
  g.tasks.filter (fun t => t.status = .pending)

/-- Model of `TaskGraph.getNextTasks()`: the ready set — pending tasks whose every
`dependsOn` entry resolves to an existing task with status `completed`. -/
def TaskGraph.getNextTasks (g : TaskGraph) : List Task :=
  g.tasks.filter (fun t =>
    t.status = .pending ∧
      t.dependsOn.all (fun depId =>
        match g.getTask depId with
        | some depTask => depTask.status = .completed
        | none => false))

/-- The update `markStatus` applies to the selected task object:
set `status`, store `result` when provided, and bump `retries` on a
transition to `failed` or `in_progress`. -/
def markUpd (status : TaskStatus) (result : Option StoredResult)
    (t : Task) : Task :=
  let t1 := { t with status := status }
  let t2 :=
    match result with
    | some r => { t1 with result := some r }
    | none => t1
  if status = .failed ∨ status = .in_progress then
    { t2 with retries := t2.retries + 1 }
  else t2

/-- Model of `TaskGraph.markStatus(taskId, status, result?)`.  Returns the boolean
result together with the updated graph. -/
def TaskGraph.markStatus (g : TaskGraph) (taskId : Nat) (status : TaskStatus)
    (result : Option StoredResult) : Bool × TaskGraph :=
  match g.getTask taskId with
  | some _ =>
      (true,
        { g with tasks :=
            g.tasks.map (fun t => if t.id = taskId then markUpd status result t else t) })
  | none => (false, g)

/-- Model of `TaskGraph.resetTaskForRetry(taskId)`: a `failed` task goes back to
`pending`; anything else (including an unknown id) is left untouched. -/
def TaskGraph.resetTaskForRetry (g : TaskGraph) (taskId : Nat) : Bool × TaskGraph :=
  match g.getTask taskId with
  | some task =>
      if task.status = .failed then
        (true,
          { g with tasks :=
              g.tasks.map (fun t => if t.id = taskId then { t with status := .pending } else t) })
      else (false, g)
  | none => (false, g)

/-- Well-formedness carried by every graph the program actually builds:
task ids are pairwise distinct (ids are handed out by `addTask` from a
strictly increasing counter). -/
def TaskGraph.WFids (g : TaskGraph) : Prop :=
  (g.tasks.map Task.id).Nodup

instance (g : TaskGraph) : Decidable g.WFids := by
  unfold TaskGraph.WFids
  infer_instance

/-- Model of `this.maxRetries` in `Orchestrator`. -/
def maxRetries : Nat := 3

/-- Model of `MAX_CONSECUTIVE_FAILURES` in `Orchestrator.executeTasks`. -/
def MAX_CONSECUTIVE_FAILURES : Nat := 5

/-- One observable action of an `executeTasks` loop iteration: an executor
dispatch (`await worker.execute(taskToRun)`), the stuck-branch wait
(`setTimeout(..., 2000 * consecutiveFailures)`), or the in-progress wait
(`setTimeout(..., 1000)`). -/
inductive IterEvent where
  | dispatched (taskId : Nat)
  | waitedStuck (ms : Nat)
  | waitedInProgress
deriving DecidableEq, Repr

/-- How a run of `Orchestrator.executeTasks` ends: the `while` loop exits
normally (`completed`), the stuck-detection branch throws
(`stuckAbort`), or an executor exception is rethrown (`criticalAbort`). -/
inductive RunOutcome where
  | completed (g : TaskGraph)
  | stuckAbort (g : TaskGraph)
  | criticalAbort (g : TaskGraph) (msg : String)
  | outOfFuel (g : TaskGraph)
deriving DecidableEq, Repr

/-- The `while` condition of `executeTasks`:
`some((t) => t.status === 'pending' || t.status === 'in_progress')`. -/
def loopCond (g : TaskGraph) : Bool :=
  g.getAllTasks.any (fun t => t.status = .pending ∨ t.status = .in_progress)

/-- An executor: what `await worker.execute(taskToRun)` yields for the
`n`-th dispatch (0-based) of the run.  `Except.error` models the executor
raising an exception; `Except.ok` a returned `TaskResult`. -/
def Executor : Type := Nat → Task → Except String TaskResult

/-- Model of `Orchestrator.executeTasks`, as a fuel-indexed recursion over the loop
body (`taskGraph.ts` lines 385–515).  State per iteration: the task graph,
`consecutiveFailures`, and the number of dispatches made so far (used only
to drive the executor).  Returns the outcome and the trace of events.
Side channels with no graph effect (logging, event emission, stats,
session memory) are dropped. -/
def executeTasks (exec : Executor) :
    Nat → TaskGraph → Nat → Nat → RunOutcome × List IterEvent
  | 0, g, _, _ => (.outOfFuel g, [])
  | fuel + 1, g, consecutiveFailures, n =>
    if loopCond g then
      match g.getNextTasks with
      | [] =>
        let inProgressCount :=
          (g.getAllTasks.filter (fun t => t.status = .in_progress)).length
        let pendingCount := g.getPendingTasks.length
        if inProgressCount = 0 ∧ pendingCount > 0 then
          let cf := consecutiveFailures + 1
          if MAX_CONSECUTIVE_FAILURES < cf then
            (.stuckAbort g, [])
          else
            let rest := executeTasks exec fuel g cf n
            (rest.1, .waitedStuck (2000 * cf) :: rest.2)
        else if 0 < inProgressCount then
          let rest := executeTasks exec fuel g consecutiveFailures n
          (rest.1, .waitedInProgress :: rest.2)
        else
          (.completed g, [])
      | taskToRun :: _ =>
        let g1 := (g.markStatus taskToRun.id .in_progress none).2
        match exec n (markUpd .in_progress none taskToRun) with
        | .ok result =>
          let newStatus : TaskStatus := if result.success then .completed else .failed
          let g2 := (g1.markStatus taskToRun.id newStatus (some (.res result))).2
          if result.success then
            let rest := executeTasks exec fuel g2 0 (n + 1)
            (rest.1, .dispatched taskToRun.id :: rest.2)
          else
            let currentRetries := ((g2.getTask taskToRun.id).map Task.retries).getD 0
            if currentRetries ≤ maxRetries then
              let g3 := (g2.resetTaskForRetry taskToRun.id).2
              let rest := executeTasks exec fuel g3 1 (n + 1)
              (rest.1, .dispatched taskToRun.id :: rest.2)
            else
              let rest := executeTasks exec fuel g2 1 (n + 1)
              (rest.1, .dispatched taskToRun.id :: rest.2)
        | .error msg =>
          let g2 := (g1.markStatus taskToRun.id .failed (some (.err msg))).2
          (.criticalAbort g2 ("Task " ++ toString taskToRun.id ++
            " failed critically: " ++ msg), [.dispatched taskToRun.id])
    else
      (.completed g, [])

/-- Number of executor invocations recorded in a trace. -/
def dispatchCount (trace : List IterEvent) : Nat :=
  (trace.filter (fun e => match e with | .dispatched _ => true | _ => false)).length

/-- Number of stuck-branch waits recorded in a trace. -/
def stuckWaitCount (trace : List IterEvent) : Nat :=
  (trace.filter (fun e => match e with | .waitedStuck _ => true | _ => false)).length

/-- Model of `WorkerAgent.execute` (`workerAgent.ts` lines 49–97): the whole handler
dispatch runs inside `try { ... } catch (error) { return { success: false,
message: error.message || 'Unknown error during task execution' } }`.
The argument is the outcome of the selected handler body (which may
throw); the catch converts a throw into a failure `TaskResult`. -/
def WorkerAgent.execute (handlerOutcome : Except String TaskResult) : TaskResult :=
  match handlerOutcome with
  | .ok r => r
  | .error e =>
      { success := false,
        message := some (if e = "" then "Unknown error during task execution" else e),
        artifacts := none, output := none }

/-- Executors assembled from `WorkerAgent.execute` always return a result. -/
def workerExecutor (handler : Nat → Task → Except String TaskResult) : Executor :=
  fun n t => .ok (WorkerAgent.execute (handler n t))

def RunOutcome.isCriticalAbort : RunOutcome → Bool
  | .criticalAbort _ _ => true
  | _ => false

/-- The stuck branch condition of `executeTasks`: nothing ready, nothing in
progress, pending tasks remain. -/
def StuckState (g : TaskGraph) : Prop :=
  g.getNextTasks = [] ∧
  (g.getAllTasks.filter (fun t => t.status = .in_progress)).length = 0 ∧
  0 < g.getPendingTasks.length

instance (g : TaskGraph) : Decidable (StuckState g) := by
  unfold StuckState
  infer_instance

/-- The stuck-branch backoff amounts the loop will sleep for, starting from
`consecutiveFailures = cf`. -/
def stuckWaits (cf : Nat) : List Nat :=
  (List.range (5 - cf)).map (fun i => 2000 * (cf + 1 + i))

/-- An executor whose every invocation returns a failure `TaskResult`. -/
def alwaysFailExec : Executor :=
  fun _ _ => .ok { success := false, message := some "boom",
                   artifacts := none, output := none }

/-- Graph with a single task and no dependencies. -/
def exGraphSingle : TaskGraph := (TaskGraph.empty.addTask "t1" []).2

/-- Graph where task 2 depends on task 1. -/
def exGraphChain : TaskGraph :=
  ((TaskGraph.empty.addTask "t1" []).2.addTask "t2" [1]).2

/-- The characters the lockfile-name regex `[^a-zA-Z0-9_.-]` leaves as-is. -/
def isLockSafeChar (c : Char) : Bool :=
  ('a' ≤ c ∧ c ≤ 'z') ∨ ('A' ≤ c ∧ c ≤ 'Z') ∨ ('0' ≤ c ∧ c ≤ '9') ∨
    c = '_' ∨ c = '.' ∨ c = '-'

/-- One step of `relativePath.replace(/[^a-zA-Z0-9_.-]/g, '_')`. -/
def sanitizeChar (c : Char) : Char := if isLockSafeChar c then c else '_'

def sanitizePath (s : String) : String := ⟨s.data.map sanitizeChar⟩

def LOCK_DIR : String := ".nyx-locks"

def LockManager.getLockfilePath (relativePath : String) : String :=
  LOCK_DIR ++ "/" ++ sanitizePath relativePath ++ ".lock"

/-- An entry of a raw `dependencies` array.  `parsePlan` only ever asks
whether such an entry is a number (`typeof depLlmId !== 'number'`), so
non-number JSON values are collapsed into `notNum`. -/
inductive JAtom where
  | num (n : Int)
  | notNum
deriving DecidableEq, Repr

/-- JSON-ish field values of a raw plan item coming back from the LLM
(`tasks: any[]` in `PlannerAgent.parsePlan`).  TS number ids are modelled
as `Int`; the `Math.floor(item.id) !== item.id` integrality test is
therefore always true in the model. -/
inductive JVal where
  | num (n : Int)
  | str (s : String)
  | arr (xs : List JAtom)
  | null
deriving DecidableEq, Repr

/-- A raw plan item: the three fields `parsePlan` reads. -/
structure PlanItem where
  id : JVal
  description : JVal
  dependencies : JVal
deriving DecidableEq, Repr

/-- Model of `String.prototype.trim()`: strip leading and trailing whitespace,
defined over the character list so that it evaluates by kernel
reduction. -/
def jsTrim (s : String) : String :=
  ⟨((s.data.dropWhile Char.isWhitespace).reverse.dropWhile Char.isWhitespace).reverse⟩

/-- First pass of `parsePlan` (lines 93–127): skip malformed and duplicate
items, `addTask` the rest with empty dependencies, and record the
`llmIdToTaskId` mapping (an association list with distinct keys). -/
def ingestLoop1 : List PlanItem → TaskGraph → List (Int × Nat) → TaskGraph × List (Int × Nat)
  | [], g, m => (g, m)
  | item :: rest, g, m =>
    match item.id, item.description, item.dependencies with
    | .num n, .str s, .arr _ =>
      if 1 ≤ n ∧ jsTrim s ≠ "" then
        if m.any (fun p => p.1 = n) then ingestLoop1 rest g m
        else
          let tg := g.addTask (jsTrim s) []
          ingestLoop1 rest tg.2 (m ++ [(n, tg.1.id)])
      else ingestLoop1 rest g m
    | _, _, _ => ingestLoop1 rest g m

/-- Dependency resolution in the second pass: non-number entries and LLM ids
absent from the mapping are dropped (`.map … .filter …`, lines 138–160). -/
def resolveDeps (m : List (Int × Nat)) (deps : List JAtom) : List Nat :=
  deps.filterMap (fun d =>
    match d with
    | .num dn => (m.find? (fun p => p.1 = dn)).map Prod.snd
    | .notNum => none)

/-- Model of `task.dependsOn = internalDepIds` on the task object with the given
internal id. -/
def setDependsOn (g : TaskGraph) (taskId : Nat) (deps : List Nat) : TaskGraph :=
  { g with tasks :=
      g.tasks.map (fun t => if t.id = taskId then { t with dependsOn := deps } else t) }

/-- Second pass of `parsePlan` (lines 130–171): link dependencies.
A nonempty resolved list overwrites the task's `dependsOn`. -/
def ingestLoop2 : List PlanItem → List (Int × Nat) → TaskGraph → TaskGraph
  | [], _, g => g
  | item :: rest, m, g =>
    match item.id with
    | .num n =>
      match m.find? (fun p => p.1 = n) with
      | some p =>
        match item.dependencies with
        | .arr deps =>
          let internalDepIds := resolveDeps m deps
          if internalDepIds ≠ [] then ingestLoop2 rest m (setDependsOn g p.2 internalDepIds)
          else ingestLoop2 rest m g
        | _ => ingestLoop2 rest m g
      | none => ingestLoop2 rest m g
    | _ => ingestLoop2 rest m g

/-- The task graph `parsePlan` hands to `validateDAG`. -/
def ingest (items : List PlanItem) : TaskGraph :=
  let gm := ingestLoop1 items TaskGraph.empty []
  ingestLoop2 items gm.2 gm.1

/-- Error text of `validateDAG` for an edge to a nonexistent task. -/
def invalidDepMsg (taskId depId : Nat) : String :=
  "Task " ++ toString taskId ++ " has an invalid dependency ID: " ++ toString depId

/-- Error text of `validateDAG` when Kahn peeling leaves nodes over. -/
def cycleMsg (ids : List Nat) : String :=
  "Cycle detected in task dependencies. Involved node IDs might include: " ++
    String.intercalate ", " (ids.map toString)

/-- Build phase of `validateDAG`, inner loop: fold one task's `dependsOn`
into the in-degree and adjacency maps; an edge to an id outside the graph
throws. -/
def addTaskEdges (ids : List Nat) (taskId : Nat) :
    List Nat → (Nat → Int) → (Nat → List Nat) →
      Except String ((Nat → Int) × (Nat → List Nat))
  | [], deg, adj => .ok (deg, adj)
  | depId :: rest, deg, adj =>
    if depId ∈ ids then
      addTaskEdges ids taskId rest
        (fun x => if x = taskId then deg taskId + 1 else deg x)
        (fun x => if x = depId then adj depId ++ [taskId] else adj x)
    else .error (invalidDepMsg taskId depId)

/-- Build phase of `validateDAG`, outer loop over all tasks. -/
def addEdges (ids : List Nat) :
    List Task → (Nat → Int) → (Nat → List Nat) →
      Except String ((Nat → Int) × (Nat → List Nat))
  | [], deg, adj => .ok (deg, adj)
  | t :: rest, deg, adj =>
    match addTaskEdges ids t.id t.dependsOn deg adj with
    | .ok pair => addEdges ids rest pair.1 pair.2
    | .error e => .error e

/-- State of the Kahn peeling loop: the work queue, the list of peeled
(popped) node ids in pop order (`count` is its length), and the current
in-degree map. -/
structure KahnState where
  queue : List Nat
  popped : List Nat
  deg : Nat → Int

/-- Inner loop over `adj.get(u)`: decrement each neighbour, enqueueing
those whose degree reaches exactly zero. -/
def processNeighbors : List Nat → (Nat → Int) → List Nat → (Nat → Int) × List Nat
  | [], deg, queue => (deg, queue)
  | v :: rest, deg, queue =>
    let d := deg v - 1
    processNeighbors rest (fun x => if x = v then d else deg x)
      (if d = 0 then queue ++ [v] else queue)

/-- The `while (queue.length > 0)` loop of `validateDAG`.  The fuel
`tasks.length + 1` used below is sufficient: every iteration pops one id,
pops are pairwise distinct ids of the graph (`kahnRun_spec`), so the queue
empties before the fuel does. -/
def kahnRun (adj : Nat → List Nat) : Nat → KahnState → KahnState
  | 0, s => s
  | fuel + 1, s =>
    match s.queue with
    | [] => s
    | u :: rest =>
      let pq := processNeighbors (adj u) s.deg rest
      kahnRun adj fuel ⟨pq.2, s.popped ++ [u], pq.1⟩

/-- The final Kahn state `validateDAG` inspects (meaningful when the build
phase succeeded). -/
def kahnFinal (tasks : List Task) : KahnState :=
  let ids := tasks.map Task.id
  match addEdges ids tasks (fun _ => 0) (fun _ => []) with
  | .error _ => ⟨[], [], fun _ => 0⟩
  | .ok pair =>
      kahnRun pair.2 (tasks.length + 1)
        ⟨ids.filter (fun i => pair.1 i = 0), [], pair.1⟩

/-- The ids reported in the cycle error: tasks with nonzero in-degree after
peeling. -/
def cycleCandidates (tasks : List Task) : List Nat :=
  (tasks.filter (fun t => 0 < (kahnFinal tasks).deg t.id)).map Task.id

/-- Model of `PlannerAgent.validateDAG` (lines 192–252). -/
def validateDAG (tasks : List Task) : Except String Unit :=
  let ids := tasks.map Task.id
  match addEdges ids tasks (fun _ => 0) (fun _ => []) with
  | .error e => .error e
  | .ok pair =>
    let final :=
      kahnRun pair.2 (tasks.length + 1)
        ⟨ids.filter (fun i => pair.1 i = 0), [], pair.1⟩
    if final.popped.length = tasks.length then .ok ()
    else .error (cycleMsg ((tasks.filter (fun t => 0 < final.deg t.id)).map Task.id))

/-- Model of `parsePlan`'s final error when no valid task was ingested. -/
def noTasksMsg : String :=
  "PlannerAgent failed to create any tasks from the objective."

/-- Model of `PlannerAgent.parsePlan` (lines 86–190). -/
def parsePlan (items : List PlanItem) : Except String TaskGraph :=
  let g := ingest items
  match validateDAG g.tasks with
  | .error e => .error ("Invalid task plan: " ++ e)
  | .ok _ =>
    if g.tasks.length = 0 then .error noTasksMsg
    else .ok g

/-- Planning then execution (`startProcessingObjective`): a plan error
propagates before `executeTasks` ever runs, so an invalid plan performs
zero executor invocations. -/
def runObjective (exec : Executor) (fuel : Nat) (items : List PlanItem) :
    Except String (RunOutcome × List IterEvent) :=
  match parsePlan items with
  | .error e => .error e
  | .ok g => .ok (executeTasks exec fuel g 0 0)

/-- Executor invocations a whole run performs. -/
def objectiveDispatchCount (exec : Executor) (fuel : Nat)
    (items : List PlanItem) : Nat :=
  match runObjective exec fuel items with
  | .error _ => 0
  | .ok r => dispatchCount r.2

/-- The dependency list of the task with id `v` (empty for foreign ids). -/
def depsOf (tasks : List Task) (v : Nat) : List Nat :=
  match tasks.find? (fun t => t.id = v) with
  | some t => t.dependsOn
  | none => []

/-- Edge `a → b` of the Kahn orientation: task `b` depends on task `a`. -/
def DepEdge (tasks : List Task) (a b : Nat) : Prop :=
  ∃ t ∈ tasks, t.id = b ∧ a ∈ t.dependsOn

/-- The dependency relation has a (directed, possibly self-loop) cycle. -/
def HasCycle (tasks : List Task) : Prop :=
  ∃ v, Relation.TransGen (DepEdge tasks) v v

/-- Number of dependencies of `v` (with multiplicity) whose source is not
yet popped. -/
def degOf (tasks : List Task) (P : List Nat) (v : Nat) : Nat :=
  ((depsOf tasks v).filter (fun d => d ∉ P)).length

/-- Loop invariant of the Kahn peeling phase, relative to the task list.
`deg` tracks, for every node, the number of its dependencies not yet
popped; popped and queued ids are distinct ids of the graph; a node's
tracked degree is zero exactly when it was popped or is queued; and no
node lying on a dependency cycle is ever popped or queued. -/
structure KahnInv (tasks : List Task) (s : KahnState) : Prop where
  hdeg : ∀ v, s.deg v = (degOf tasks s.popped v : Int)
  hnodup : (s.popped ++ s.queue).Nodup
  hpop_sub : ∀ v ∈ s.popped, v ∈ tasks.map Task.id
  hq_sub : ∀ v ∈ s.queue, v ∈ tasks.map Task.id
  hzero : ∀ v ∈ tasks.map Task.id,
    (degOf tasks s.popped v = 0 ↔ v ∈ s.popped ∨ v ∈ s.queue)
  hcyc : ∀ v, Relation.TransGen (DepEdge tasks) v v →
    v ∉ s.popped ∧ v ∉ s.queue

/-- Well-formedness of every graph `parsePlan` can hand to the validator
or the scheduler: distinct ids, resolvable dependencies, nonempty
descriptions. -/
def GraphWF (g : TaskGraph) : Prop :=
  (g.tasks.map Task.id).Nodup ∧
  (∀ t ∈ g.tasks, ∀ d ∈ t.dependsOn, d ∈ g.tasks.map Task.id) ∧
  (∀ t ∈ g.tasks, t.description ≠ "")

def RunOutcome.isStuckAbort : RunOutcome → Bool
  | .stuckAbort _ => true
  | _ => false

/-- Final graph of the chain scenario: task 1 permanently failed after two
attempts, task 2 still pending. -/
def gChainFinal : TaskGraph :=
  { tasks := [{ id := 1, description := "t1", dependsOn := [],
                status := .failed,
                result := some (.res { success := false, message := some "boom",
                                       artifacts := none, output := none }),
                retries := 4 },
              { id := 2, description := "t2", dependsOn := [1],
                status := .pending, result := none, retries := 0 }],
    nextTaskId := 3 }

/-- A stuck graph: task 2 pending behind permanently failed task 1. -/
def gStuck : TaskGraph :=
  { tasks := [{ id := 1, description := "t1", dependsOn := [],
                status := .failed, result := none, retries := 4 },
              { id := 2, description := "t2", dependsOn := [1],
                status := .pending, result := none, retries := 0 }],
    nextTaskId := 3 }

/-- Tasks of a 2-cycle graph: task 1 depends on 2, task 2 depends on 1. -/
def cycTasks : List Task :=
  ((TaskGraph.empty.addTask "a" [2]).2.addTask "b" [1]).2.tasks

/-- Tasks of an acyclic chain graph. -/
def chainTasks : List Task :=
  ((TaskGraph.empty.addTask "a" []).2.addTask "b" [1]).2.tasks

/-- Items exercising every skipped-invalid case: a valid task whose
dependency id 99 resolves to nothing, an empty-description item, a
non-number id, and non-array dependencies. -/
def ex6Items : List PlanItem :=
  [⟨.num 1, .str "Do A", .arr [.num 99]⟩,
   ⟨.num 2, .str " ", .arr []⟩,
   ⟨.null, .str "orphan", .arr []⟩,
   ⟨.num 3, .str "Do B", .null⟩]

def ex6Graph : TaskGraph :=
  { tasks := [{ id := 1, description := "Do A", dependsOn := [],
                status := .pending, result := none, retries := 0 }],
    nextTaskId := 2 }

lemma markUpd_id (s : TaskStatus) (result : Option StoredResult) (t : Task) :
    (markUpd s result t).id = t.id := by
  cases result <;> by_cases h : s = .failed ∨ s = .in_progress <;> simp [markUpd, h]

lemma markUpd_eq (s : TaskStatus) (result : Option StoredResult) (t : Task) :
    markUpd s result t =
      { t with status := s,
               result := match result with | some r => some r | none => t.result,
               retries := if s = .failed ∨ s = .in_progress then t.retries + 1
                          else t.retries } := by
  cases result <;> by_cases h : s = .failed ∨ s = .in_progress <;> simp [markUpd, h]

lemma find?_map_update (l : List Task) (k : Nat) (f : Task → Task)
    (hf : ∀ t, (f t).id = t.id) :
    (l.map (fun u => if u.id = k then f u else u)).find? (fun t => t.id = k) =
      (l.find? (fun t => t.id = k)).map f := by
  induction l with
  | nil => simp
  | cons a l ih =>
    by_cases h : a.id = k
    · simp [List.find?, h, hf]
    · simp [List.find?, h, ih]

/-- C3: `markStatus id s result` on a task present in the graph returns
true, sets its status to `s`, stores the result exactly when one is
provided, and increments `retries` by one exactly when `s` is `failed` or
`in_progress`, leaving every other task unchanged; on an id not present it
returns false and changes nothing. -/
theorem claim3_markStatus (g : TaskGraph) (taskId : Nat) (s : TaskStatus)
    (result : Option StoredResult) :
    (g.getTask taskId = none → g.markStatus taskId s result = (false, g)) ∧
    (∀ t, g.getTask taskId = some t →
      (g.markStatus taskId s result).1 = true ∧
      (g.markStatus taskId s result).2.getTask taskId = some
        { t with status := s,
                 result := match result with | some r => some r | none => t.result,
                 retries := if s = .failed ∨ s = .in_progress then t.retries + 1
                            else t.retries } ∧
      ∀ u ∈ g.tasks, u.id ≠ taskId → u ∈ (g.markStatus taskId s result).2.tasks) := by
  constructor
  · intro h
    simp [TaskGraph.markStatus, h]
  · intro t ht
    refine ⟨by simp [TaskGraph.markStatus, ht], ?_, ?_⟩
    · show (TaskGraph.markStatus g taskId s result).2.getTask taskId = _
      unfold TaskGraph.markStatus
      rw [ht]
      unfold TaskGraph.getTask
      rw [find?_map_update _ _ _ (markUpd_id s result)]
      unfold TaskGraph.getTask at ht
      rw [ht]
      simp [markUpd_eq]
    · intro u hu hne
      unfold TaskGraph.markStatus
      rw [ht]
      simp only [List.mem_map]
      exact ⟨u, hu, by simp [hne]⟩

/-- C4: the ready set contains exactly the pending tasks all of whose
dependencies resolve to an existing completed task, listed in insertion
order (a sublist of the task list); a pending task with no dependencies is
always ready.  `getNextTasks` is a pure function of the graph. -/
theorem claim4_ready_set (g : TaskGraph) :
    (∀ t, t ∈ g.getNextTasks ↔
       t ∈ g.tasks ∧ t.status = .pending ∧
       ∀ d ∈ t.dependsOn, ∃ u, g.getTask d = some u ∧ u.status = .completed) ∧
    g.getNextTasks.Sublist g.tasks ∧
    (∀ t ∈ g.tasks, t.status = .pending → t.dependsOn = [] → t ∈ g.getNextTasks) := by
  have hmem : ∀ t, t ∈ g.getNextTasks ↔
      t ∈ g.tasks ∧ t.status = .pending ∧
      ∀ d ∈ t.dependsOn, ∃ u, g.getTask d = some u ∧ u.status = .completed := by
    intro t
    unfold TaskGraph.getNextTasks
    rw [List.mem_filter]
    simp only [decide_eq_true_eq, List.all_eq_true]
    constructor
    · rintro ⟨h1, h2, h3⟩
      refine ⟨h1, h2, fun d hd => ?_⟩
      have := h3 d hd
      cases hu : g.getTask d with
      | some u =>
          rw [hu] at this
          exact ⟨u, rfl, by simpa using this⟩
      | none => rw [hu] at this; simp at this
    · rintro ⟨h1, h2, h3⟩
      refine ⟨h1, h2, fun d hd => ?_⟩
      obtain ⟨u, hu, hc⟩ := h3 d hd
      rw [hu]
      simpa using hc
  refine ⟨hmem, List.filter_sublist _, fun t ht hp hdep => ?_⟩
  exact (hmem t).2 ⟨ht, hp, by simp [hdep]⟩

/-- C8: `resetTaskForRetry` returns true and moves the task from
`failed` back to `pending` (touching no other task) exactly when the task
exists and is `failed`; in every other case, including an unknown id, it
returns false and leaves the graph unchanged. -/
theorem claim8_resetForRetry (g : TaskGraph) (taskId : Nat) :
    (∀ t, g.getTask taskId = some t → t.status = .failed →
      (g.resetTaskForRetry taskId).1 = true ∧
      (g.resetTaskForRetry taskId).2.getTask taskId = some { t with status := .pending } ∧
      ∀ u ∈ g.tasks, u.id ≠ taskId → u ∈ (g.resetTaskForRetry taskId).2.tasks) ∧
    (∀ t, g.getTask taskId = some t → t.status ≠ .failed →
      g.resetTaskForRetry taskId = (false, g)) ∧
    (g.getTask taskId = none → g.resetTaskForRetry taskId = (false, g)) := by
  refine ⟨fun t ht hf => ?_, fun t ht hf => ?_, fun h => ?_⟩
  · unfold TaskGraph.resetTaskForRetry
    rw [ht]
    dsimp only
    rw [if_pos hf]
    refine ⟨rfl, ?_, ?_⟩
    · show TaskGraph.getTask _ _ = _
      unfold TaskGraph.getTask
      dsimp only
      rw [find?_map_update g.tasks taskId
        (fun u => { u with status := TaskStatus.pending }) (fun u => rfl)]
      unfold TaskGraph.getTask at ht
      rw [ht]
      rfl
    · intro u hu hne
      simp only [List.mem_map]
      exact ⟨u, hu, by simp [hne]⟩
  · unfold TaskGraph.resetTaskForRetry
    rw [ht]
    dsimp only
    rw [if_neg hf]
  · unfold TaskGraph.resetTaskForRetry
    rw [h]

theorem worker_no_critical (handler : Nat → Task → Except String TaskResult) :
    ∀ fuel g cf n,
      (executeTasks (workerExecutor handler) fuel g cf n).1.isCriticalAbort = false := by
  intro fuel
  induction fuel with
  | zero => intro g cf n; rfl
  | succ fuel ih =>
    intro g cf n
    rw [executeTasks]
    split
    · split
      · dsimp only
        split
        · split
          · rfl
          · exact ih _ _ _
        · split
          · exact ih _ _ _
          · rfl
      · dsimp only
        split
        · split
          · exact ih _ _ _
          · split
            · exact ih _ _ _
            · exact ih _ _ _
        · rename_i heq
          simp [workerExecutor] at heq
    · rfl

lemma stuck_loopCond {g : TaskGraph} (h : StuckState g) : loopCond g = true := by
  obtain ⟨-, -, hp⟩ := h
  unfold TaskGraph.getPendingTasks at hp
  rw [List.length_pos] at hp
  obtain ⟨t, ht⟩ := List.exists_mem_of_ne_nil _ hp
  rw [List.mem_filter] at ht
  unfold loopCond TaskGraph.getAllTasks
  rw [List.any_eq_true]
  refine ⟨t, ht.1, by simp_all⟩

lemma stuckWaits_succ {cf : Nat} (h : cf < 5) :
    stuckWaits cf = 2000 * (cf + 1) :: stuckWaits (cf + 1) := by
  unfold stuckWaits
  obtain ⟨k, hk⟩ : ∃ k, 5 - cf = k + 1 := ⟨5 - cf - 1, by omega⟩
  have hk2 : 5 - (cf + 1) = k := by omega
  rw [hk, hk2, List.range_succ_eq_map, List.map_cons, List.map_map]
  congr 1
  exact List.map_congr_left fun i _ => by simp [Function.comp]; ring

lemma stuck_run (g : TaskGraph) (hs : StuckState g) (exec : Executor) :
    ∀ fuel cf n, cf ≤ 5 → 6 ≤ cf + fuel →
      executeTasks exec fuel g cf n =
        (.stuckAbort g, (stuckWaits cf).map .waitedStuck) := by
  intro fuel
  induction fuel with
  | zero => intro cf n h5 h6; exact absurd h6 (by omega)
  | succ fuel ih =>
    intro cf n h5 h6
    rw [executeTasks]
    rw [if_pos (stuck_loopCond hs)]
    rw [hs.1]
    dsimp only
    rw [if_pos ⟨hs.2.1, hs.2.2⟩]
    by_cases hcf : cf = 5
    · subst hcf
      rw [if_pos (by norm_num [MAX_CONSECUTIVE_FAILURES])]
      simp [stuckWaits]
    · rw [if_neg (by simp only [MAX_CONSECUTIVE_FAILURES]; omega)]
      rw [ih (cf + 1) n (by omega) (by omega)]
      rw [(stuckWaits_succ (show cf < 5 by omega) : stuckWaits cf = _)]
      simp

/-- C1 (amended): a task with no dependents whose executor always returns a
failure result is dispatched exactly 2 times — not `maxRetries + 1 = 4` —
because `markStatus` increments `retries` both on entering `in_progress`
and on `failed`, so the counter reaches 4 after two attempts and the retry
check `retries <= maxRetries` stops; the task then remains `failed`
permanently and the run still completes without aborting. -/
theorem claim1_retry_bound (desc : String) (results : Nat → TaskResult)
    (hfail : ∀ n, (results n).success = false) (fuel : Nat) (hfuel : 3 ≤ fuel) :
    executeTasks (fun n _ => .ok (results n)) fuel
        (TaskGraph.empty.addTask desc []).2 0 0 =
      (.completed { tasks := [{ id := 1, description := desc, dependsOn := [],
                                status := .failed,
                                result := some (.res (results 1)), retries := 4 }],
                    nextTaskId := 2 },
       [.dispatched 1, .dispatched 1]) ∧
    dispatchCount (executeTasks (fun n _ => .ok (results n)) fuel
        (TaskGraph.empty.addTask desc []).2 0 0).2 = 2 ∧
    ¬ dispatchCount (executeTasks (fun n _ => .ok (results n)) fuel
        (TaskGraph.empty.addTask desc []).2 0 0).2 = maxRetries + 1 := by
  obtain ⟨k, rfl⟩ : ∃ k, fuel = k + 3 := ⟨fuel - 3, by omega⟩
  have h : executeTasks (fun n _ => .ok (results n)) (k + 3)
        (TaskGraph.empty.addTask desc []).2 0 0 =
      (.completed { tasks := [{ id := 1, description := desc, dependsOn := [],
                                status := .failed,
                                result := some (.res (results 1)), retries := 4 }],
                    nextTaskId := 2 },
       [.dispatched 1, .dispatched 1]) := by
    rw [executeTasks]
    simp [loopCond, TaskGraph.getAllTasks, TaskGraph.addTask, TaskGraph.empty,
      TaskGraph.getNextTasks, TaskGraph.getTask, TaskGraph.markStatus, markUpd,
      TaskGraph.getPendingTasks, TaskGraph.resetTaskForRetry, maxRetries, hfail,
      List.filter, List.find?, executeTasks]
  have h2 : dispatchCount (executeTasks (fun n _ => .ok (results n)) (k + 3)
      (TaskGraph.empty.addTask desc []).2 0 0).2 = 2 := by
    rw [h]
    rfl
  refine ⟨h, h2, ?_⟩
  rw [h2]
  decide

lemma string_data_append (s t : String) : (s ++ t).data = s.data ++ t.data := rfl

theorem getLockfilePath_eq_iff (p q : String) :
    LockManager.getLockfilePath p = LockManager.getLockfilePath q ↔
      sanitizePath p = sanitizePath q := by
  unfold LockManager.getLockfilePath
  constructor
  · intro h
    have h2 := congrArg String.data h
    simp only [string_data_append] at h2
    have h3 := List.append_cancel_left (List.append_cancel_right h2)
    exact String.ext h3
  · intro h
    rw [h]

lemma find?_eq_of_mem_nodup {tasks : List Task}
    (hnd : (tasks.map Task.id).Nodup) {t : Task} (ht : t ∈ tasks) :
    tasks.find? (fun u => u.id = t.id) = some t := by
  induction tasks with
  | nil => cases ht
  | cons a rest ih =>
    rw [List.map_cons, List.nodup_cons] at hnd
    rcases List.mem_cons.1 ht with rfl | htr
    · simp [List.find?]
    · have hne : ¬(a.id = t.id) := fun h => hnd.1 (h ▸ List.mem_map_of_mem Task.id htr)
      simp only [List.find?]
      rw [decide_eq_false hne]
      exact ih hnd.2 htr

lemma mem_depsOf_DepEdge {tasks : List Task} {a b : Nat}
    (h : a ∈ depsOf tasks b) : DepEdge tasks a b := by
  unfold depsOf at h
  cases hf : tasks.find? (fun t => t.id = b) with
  | none => rw [hf] at h; cases h
  | some t =>
    rw [hf] at h
    have hmem := List.mem_of_find?_eq_some hf
    have hid := List.find?_some hf
    simp only [decide_eq_true_eq] at hid
    exact ⟨t, hmem, hid, h⟩

lemma DepEdge_mem_depsOf {tasks : List Task}
    (hnd : (tasks.map Task.id).Nodup) {a b : Nat}
    (h : DepEdge tasks a b) : a ∈ depsOf tasks b := by
  obtain ⟨t, ht, rfl, ha⟩ := h
  unfold depsOf
  rw [find?_eq_of_mem_nodup hnd ht]
  exact ha

lemma depsOf_ne_nil_mem_ids {tasks : List Task} {v : Nat}
    (h : depsOf tasks v ≠ []) : v ∈ tasks.map Task.id := by
  unfold depsOf at h
  cases hf : tasks.find? (fun t => t.id = v) with
  | none => rw [hf] at h; cases h rfl
  | some t =>
    have hmem := List.mem_of_find?_eq_some hf
    have hid := List.find?_some hf
    simp only [decide_eq_true_eq] at hid
    exact hid ▸ List.mem_map_of_mem Task.id hmem

lemma cyclic_mem_ids {tasks : List Task} {v : Nat}
    (h : Relation.TransGen (DepEdge tasks) v v) : v ∈ tasks.map Task.id := by
  cases h with
  | single e => obtain ⟨t, ht, rfl, -⟩ := e; exact List.mem_map_of_mem Task.id ht
  | tail _ e => obtain ⟨t, ht, rfl, -⟩ := e; exact List.mem_map_of_mem Task.id ht

lemma cyclic_rotate {tasks : List Task} {v : Nat}
    (h : Relation.TransGen (DepEdge tasks) v v) :
    ∃ w, Relation.TransGen (DepEdge tasks) w w ∧ DepEdge tasks w v := by
  cases h with
  | single e => exact ⟨v, Relation.TransGen.single e, e⟩
  | tail htr e =>
    rename_i w
    exact ⟨w, Relation.TransGen.trans (Relation.TransGen.single e) htr, e⟩

lemma nodup_subset_length_le {l l' : List Nat} (h : l.Nodup) (hs : l ⊆ l') :
    l.length ≤ l'.length := by
  calc l.length = l.toFinset.card := (List.toFinset_card_of_nodup h).symm
    _ ≤ l'.toFinset.card := Finset.card_le_card (fun x hx => by
        rw [List.mem_toFinset] at hx ⊢; exact hs hx)
    _ ≤ l'.length := l'.toFinset_card_le

lemma subset_of_nodup_subset_length_eq {l l' : List Nat}
    (h : l.Nodup) (h' : l'.Nodup) (hs : l ⊆ l') (hlen : l'.length ≤ l.length) :
    l' ⊆ l := by
  intro x hx
  have hcard : l'.toFinset.card ≤ l.toFinset.card := by
    rw [List.toFinset_card_of_nodup h, List.toFinset_card_of_nodup h']
    exact hlen
  have hsub : l.toFinset ⊆ l'.toFinset := fun y hy => by
    rw [List.mem_toFinset] at hy ⊢; exact hs hy
  have := Finset.eq_of_subset_of_card_le hsub hcard
  rw [← List.mem_toFinset, ← this, List.mem_toFinset] at hx
  exact hx

lemma exists_cycle_of_all_have_pred {S : List Nat} (hne : S ≠ [])
    {R : Nat → Nat → Prop} (hstep : ∀ v ∈ S, ∃ d ∈ S, R d v) :
    ∃ v, Relation.TransGen R v v := by
  classical
  obtain ⟨v₀, hv₀⟩ := List.exists_mem_of_ne_nil S hne
  have hstep' : ∀ v : {x // x ∈ S}, ∃ d : {x // x ∈ S}, R d.1 v.1 := by
    intro v
    obtain ⟨d, hd, hr⟩ := hstep v.1 v.2
    exact ⟨⟨d, hd⟩, hr⟩
  choose F hF using hstep'
  set g : Nat → {x // x ∈ S} := fun n => F^[n] ⟨v₀, hv₀⟩ with hg
  have hgsucc : ∀ n, g (n + 1) = F (g n) := fun n => Function.iterate_succ_apply' F n _
  have hedge : ∀ n, R (g (n + 1)).1 (g n).1 := fun n => by rw [hgsucc]; exact hF (g n)
  have hchain : ∀ k i, Relation.TransGen R (g (i + k + 1)).1 (g i).1 := by
    intro k
    induction k with
    | zero => intro i; exact Relation.TransGen.single (hedge i)
    | succ k ih =>
      intro i
      have h1 : Relation.TransGen R (g (i + k + 2)).1 (g (i + k + 1)).1 :=
        Relation.TransGen.single (hedge (i + k + 1))
      have h2 := ih i
      exact Relation.TransGen.trans h1 h2
  have hmaps : ∀ n ∈ Finset.range (S.length + 1), (g n).1 ∈ S.toFinset := by
    intro n _
    rw [List.mem_toFinset]
    exact (g n).2
  have hcardlt : S.toFinset.card < (Finset.range (S.length + 1)).card := by
    rw [Finset.card_range]
    exact Nat.lt_succ_of_le S.toFinset_card_le
  obtain ⟨a, ha, b, hb, hab, heq⟩ :=
    Finset.exists_ne_map_eq_of_card_lt_of_maps_to hcardlt hmaps
  rcases Nat.lt_or_ge a b with hlt | hge
  · obtain ⟨k, rfl⟩ : ∃ k, b = a + k + 1 := ⟨b - a - 1, by omega⟩
    refine ⟨(g a).1, ?_⟩
    have := hchain k a
    rwa [← heq] at this
  · have hlt : b < a := by omega
    obtain ⟨k, rfl⟩ : ∃ k, a = b + k + 1 := ⟨a - b - 1, by omega⟩
    refine ⟨(g b).1, ?_⟩
    have := hchain k b
    rwa [heq] at this

lemma addTaskEdges_ok (ids : List Nat) (taskId : Nat) :
    ∀ (deps : List Nat) (deg : Nat → Int) (adj : Nat → List Nat),
      (∀ d ∈ deps, d ∈ ids) →
      ∃ pair, addTaskEdges ids taskId deps deg adj = .ok pair ∧
        (∀ x, pair.1 x = deg x + if x = taskId then (deps.length : Int) else 0) ∧
        (∀ u, pair.2 u = adj u ++ List.replicate (deps.count u) taskId) := by
  intro deps
  induction deps with
  | nil =>
    intro deg adj _
    exact ⟨(deg, adj), rfl, fun x => by simp, fun u => by simp⟩
  | cons a rest ih =>
    intro deg adj hsub
    have ha : a ∈ ids := hsub a (List.mem_cons_self a rest)
    obtain ⟨pair, hok, hdeg, hadj⟩ :=
      ih (fun x => if x = taskId then deg taskId + 1 else deg x)
         (fun x => if x = a then adj a ++ [taskId] else adj x)
         (fun d hd => hsub d (List.mem_cons_of_mem a hd))
    refine ⟨pair, ?_, ?_, ?_⟩
    · unfold addTaskEdges
      rw [if_pos ha]
      exact hok
    · intro x
      rw [hdeg x]
      by_cases hx : x = taskId <;> simp [hx] <;> push_cast <;> ring
    · intro u
      rw [hadj u]
      by_cases hu : u = a
      · subst hu
        simp [List.count_cons, List.append_assoc]
        rw [← List.replicate_succ]
      · have : (a :: rest).count u = rest.count u := by
          simp [List.count_cons, Ne.symm hu, hu]
        rw [this]
        simp [Ne.symm hu, hu]

lemma addTaskEdges_err (ids : List Nat) (taskId : Nat) :
    ∀ (deps : List Nat) (deg : Nat → Int) (adj : Nat → List Nat),
      ¬(∀ d ∈ deps, d ∈ ids) →
      ∃ d ∈ deps, d ∉ ids ∧
        addTaskEdges ids taskId deps deg adj = .error (invalidDepMsg taskId d) := by
  intro deps
  induction deps with
  | nil => intro deg adj h; exact absurd (by simp) h
  | cons a rest ih =>
    intro deg adj h
    by_cases ha : a ∈ ids
    · have hrest : ¬(∀ d ∈ rest, d ∈ ids) := by
        intro hall
        exact h (fun d hd => by
          rcases List.mem_cons.1 hd with rfl | hm
          · exact ha
          · exact hall d hm)
      obtain ⟨d, hd, hdn, herr⟩ := ih _ _ hrest
      refine ⟨d, List.mem_cons_of_mem a hd, hdn, ?_⟩
      unfold addTaskEdges
      rw [if_pos ha]
      exact herr
    · refine ⟨a, List.mem_cons_self a rest, ha, ?_⟩
      unfold addTaskEdges
      rw [if_neg ha]

lemma addEdges_ok (ids : List Nat) :
    ∀ (ts : List Task) (deg : Nat → Int) (adj : Nat → List Nat),
      (∀ t ∈ ts, ∀ d ∈ t.dependsOn, d ∈ ids) →
      ∃ pair, addEdges ids ts deg adj = .ok pair ∧
        (∀ x, pair.1 x =
          deg x + ((ts.filter (fun t => t.id = x)).map
            (fun t => (t.dependsOn.length : Int))).sum) ∧
        (∀ u v, (pair.2 u).count v =
          (adj u).count v + ((ts.filter (fun t => t.id = v)).map
            (fun t => t.dependsOn.count u)).sum) := by
  intro ts
  induction ts with
  | nil =>
    intro deg adj _
    exact ⟨(deg, adj), rfl, fun x => by simp, fun u v => by simp⟩
  | cons t rest ih =>
    intro deg adj hsub
    obtain ⟨pair1, hok1, hdeg1, hadj1⟩ :=
      addTaskEdges_ok ids t.id t.dependsOn deg adj
        (hsub t (List.mem_cons_self t rest))
    obtain ⟨pair2, hok2, hdeg2, hadj2⟩ :=
      ih pair1.1 pair1.2 (fun u hu => hsub u (List.mem_cons_of_mem t hu))
    refine ⟨pair2, ?_, ?_, ?_⟩
    · unfold addEdges
      rw [hok1]
      exact hok2
    · intro x
      rw [hdeg2 x, hdeg1 x]
      by_cases hx : t.id = x
      · rw [if_pos hx.symm]
        simp [List.filter_cons, hx]
        ring
      · rw [if_neg (fun h => hx h.symm)]
        simp [List.filter_cons, hx]
    · intro u v
      rw [hadj2 u v, hadj1 u]
      rw [List.count_append, List.count_replicate]
      by_cases hv : t.id = v
      · subst hv
        simp [List.filter_cons]
        ring
      · have : ¬(t.id == v) = true := by simpa using hv
        simp [List.filter_cons, hv, this]

lemma filter_id_of_nodup {tasks : List Task}
    (hnd : (tasks.map Task.id).Nodup) (v : Nat) :
    tasks.filter (fun t => t.id = v) = (tasks.find? (fun t => t.id = v)).toList := by
  induction tasks with
  | nil => simp
  | cons a rest ih =>
    rw [List.map_cons, List.nodup_cons] at hnd
    by_cases ha : a.id = v
    · have hrest : rest.filter (fun t => t.id = v) = [] := by
        rw [List.filter_eq_nil_iff]
        intro u hu hdec
        rw [decide_eq_true_eq] at hdec
        have haid : a.id = u.id := by rw [ha, hdec]
        exact hnd.1 (haid ▸ List.mem_map_of_mem Task.id hu)
      rw [List.filter_cons, List.find?]
      simp only [decide_eq_true_eq] at *
      simp [ha, hrest]
    · rw [List.filter_cons, List.find?]
      rw [decide_eq_false ha]
      simp only [Bool.false_eq_true, if_false]
      exact ih hnd.2

lemma build_spec {tasks : List Task}
    (hnd : (tasks.map Task.id).Nodup)
    (hdeps : ∀ t ∈ tasks, ∀ d ∈ t.dependsOn, d ∈ tasks.map Task.id) :
    ∃ pair, addEdges (tasks.map Task.id) tasks (fun _ => 0) (fun _ => []) = .ok pair ∧
      (∀ v, pair.1 v = ((depsOf tasks v).length : Int)) ∧
      (∀ u v, (pair.2 u).count v = (depsOf tasks v).count u) := by
  obtain ⟨pair, hok, hdeg, hadj⟩ :=
    addEdges_ok (tasks.map Task.id) tasks (fun _ => 0) (fun _ => []) hdeps
  refine ⟨pair, hok, fun v => ?_, fun u v => ?_⟩
  · rw [hdeg v]
    rw [filter_id_of_nodup hnd v]
    unfold depsOf
    cases tasks.find? (fun t => t.id = v) with
    | none => simp
    | some t => simp
  · rw [hadj u v]
    rw [filter_id_of_nodup hnd v]
    unfold depsOf
    cases tasks.find? (fun t => t.id = v) with
    | none => simp
    | some t => simp

lemma countP_split (l : List Nat) (p q : Nat → Bool) :
    l.countP p = (l.countP fun d => p d && q d) + (l.countP fun d => p d && !q d) := by
  induction l with
  | nil => simp
  | cons a rest ih =>
    rw [List.countP_cons, List.countP_cons, List.countP_cons]
    cases hp : p a <;> cases hq : q a <;> simp [hp, hq] <;> omega

lemma filter_not_mem_append_singleton (l : List Nat) (P : List Nat) (u : Nat)
    (hu : u ∉ P) :
    (l.filter (fun d => d ∉ P)).length =
      (l.filter (fun d => d ∉ P ++ [u])).length + l.count u := by
  rw [← List.countP_eq_length_filter, ← List.countP_eq_length_filter]
  rw [countP_split l (fun d => decide (d ∉ P)) (fun d => decide (d = u))]
  have h1 : (l.countP fun d => decide (d ∉ P) && decide (d = u)) = l.count u := by
    unfold List.count
    refine List.countP_congr fun d _ => ?_
    by_cases hd : d = u
    · subst hd; simp [hu]
    · simp [hd]
  have h2 : (l.countP fun d => decide (d ∉ P) && !decide (d = u)) =
      l.countP fun d => decide (d ∉ P ++ [u]) := by
    refine List.countP_congr fun d _ => ?_
    by_cases h1 : d ∈ P <;> by_cases h2 : d = u <;>
      simp [h1, h2, List.mem_append]
  rw [h1, h2]
  omega

lemma degOf_append {tasks : List Task} {P : List Nat} {u : Nat} (hu : u ∉ P)
    (v : Nat) :
    degOf tasks P v = degOf tasks (P ++ [u]) v + (depsOf tasks v).count u := by
  unfold degOf
  exact filter_not_mem_append_singleton (depsOf tasks v) P u hu

lemma degOf_anti {tasks : List Task} {P P' : List Nat} (hsub : P ⊆ P') (v : Nat) :
    degOf tasks P' v ≤ degOf tasks P v := by
  unfold degOf
  rw [← List.countP_eq_length_filter, ← List.countP_eq_length_filter]
  refine List.countP_mono_left fun d _ hd => ?_
  rw [decide_eq_true_eq] at hd ⊢
  exact fun hmem => hd (hsub hmem)

lemma degOf_pos_of_dep {tasks : List Task} {P : List Nat} {v w : Nat}
    (hw : w ∈ depsOf tasks v) (hwP : w ∉ P) : 0 < degOf tasks P v := by
  unfold degOf
  rw [List.length_pos]
  intro hnil
  have : w ∈ (depsOf tasks v).filter (fun d => d ∉ P) :=
    List.mem_filter.2 ⟨hw, by simpa using hwP⟩
  rw [hnil] at this
  cases this

lemma processNeighbors_spec :
    ∀ (L : List Nat) (deg : Nat → Int) (Q : List Nat),
      Q.Nodup → (∀ v ∈ Q, deg v ≤ 0) →
      (∀ v, (processNeighbors L deg Q).1 v = deg v - (L.count v : Int)) ∧
      (processNeighbors L deg Q).2.Nodup ∧
      (∀ v ∈ (processNeighbors L deg Q).2, (processNeighbors L deg Q).1 v ≤ 0) ∧
      (∀ v, v ∈ (processNeighbors L deg Q).2 ↔
        v ∈ Q ∨ (1 ≤ deg v ∧ deg v ≤ (L.count v : Int))) := by
  intro L
  induction L with
  | nil =>
    intro deg Q hQ hQz
    refine ⟨fun v => by simp [processNeighbors], by simpa [processNeighbors] using hQ,
      by simpa [processNeighbors] using hQz, fun v => ?_⟩
    simp only [processNeighbors, List.count_nil]
    constructor
    · intro h; exact Or.inl h
    · rintro (h | ⟨h1, h2⟩)
      · exact h
      · exfalso; omega
  | cons a rest ih =>
    intro deg Q hQ hQz
    have hca : ((a :: rest).count a : Int) = (rest.count a : Int) + 1 := by
      rw [List.count_cons]
      simp
    have hcv : ∀ v, v ≠ a → ((a :: rest).count v : Int) = (rest.count v : Int) := by
      intro v hv
      rw [List.count_cons]
      have hb : (v == a) = false := by simpa using hv
      simp [hb, hv, Ne.symm hv]
    set deg1 : Nat → Int := fun x => if x = a then deg a - 1 else deg x with hdeg1
    have hd1a : deg1 a = deg a - 1 := by rw [hdeg1]; simp
    have hd1v : ∀ v, v ≠ a → deg1 v = deg v := by
      intro v hv
      rw [hdeg1]
      simp [hv]
    by_cases hda : deg a - 1 = 0
    · have hstep : processNeighbors (a :: rest) deg Q =
          processNeighbors rest deg1 (Q ++ [a]) := by
        show processNeighbors rest (fun x => if x = a then deg a - 1 else deg x)
            (if deg a - 1 = 0 then Q ++ [a] else Q) = _
        rw [if_pos hda]
      have haQ : a ∉ Q := fun hmem => by have := hQz a hmem; omega
      have hQ1 : (Q ++ [a]).Nodup := by
        simp [List.nodup_append, hQ, haQ]
      have hQz1 : ∀ v ∈ Q ++ [a], deg1 v ≤ 0 := by
        intro v hv
        rcases List.mem_append.1 hv with hv | hv
        · have hva : v ≠ a := fun h => haQ (h ▸ hv)
          rw [hd1v v hva]
          exact hQz v hv
        · rw [List.mem_singleton] at hv
          subst hv
          rw [hd1a]
          omega
      obtain ⟨ih1, ih2, ih3, ih4⟩ := ih deg1 (Q ++ [a]) hQ1 hQz1
      rw [hstep]
      refine ⟨fun v => ?_, ih2, ih3, fun v => ?_⟩
      · rw [ih1 v]
        by_cases hv : v = a
        · subst hv
          rw [hd1a, hca]
          ring
        · rw [hd1v v hv, hcv v hv]
      · rw [ih4 v]
        by_cases hv : v = a
        · subst hv
          rw [hd1a, hca]
          have hmem : v ∈ Q ++ [v] :=
            List.mem_append.2 (Or.inr (List.mem_singleton.2 rfl))
          constructor
          · intro _
            exact Or.inr (by omega)
          · intro _
            exact Or.inl hmem
        · rw [hd1v v hv, hcv v hv]
          simp only [List.mem_append, List.mem_singleton]
          constructor
          · rintro ((h | h) | h)
            · exact Or.inl h
            · exact absurd h hv
            · exact Or.inr h
          · rintro (h | h)
            · exact Or.inl (Or.inl h)
            · exact Or.inr h
    · have hstep : processNeighbors (a :: rest) deg Q =
          processNeighbors rest deg1 Q := by
        show processNeighbors rest (fun x => if x = a then deg a - 1 else deg x)
            (if deg a - 1 = 0 then Q ++ [a] else Q) = _
        rw [if_neg hda]
      have hQz1 : ∀ v ∈ Q, deg1 v ≤ 0 := by
        intro v hv
        by_cases hva : v = a
        · subst hva
          rw [hd1a]
          have := hQz v hv
          omega
        · rw [hd1v v hva]
          exact hQz v hv
      obtain ⟨ih1, ih2, ih3, ih4⟩ := ih deg1 Q hQ hQz1
      rw [hstep]
      refine ⟨fun v => ?_, ih2, ih3, fun v => ?_⟩
      · rw [ih1 v]
        by_cases hv : v = a
        · subst hv
          rw [hd1a, hca]
          ring
        · rw [hd1v v hv, hcv v hv]
      · rw [ih4 v]
        by_cases hv : v = a
        · subst hv
          rw [hd1a, hca]
          constructor
          · rintro (h | h)
            · exact Or.inl h
            · right; omega
          · rintro (h | h)
            · exact Or.inl h
            · right; omega
        · rw [hd1v v hv, hcv v hv]

lemma kahnStep_inv {tasks : List Task} {adjm : Nat → List Nat}
    (hnd : (tasks.map Task.id).Nodup)
    (hAdj : ∀ u v, (adjm u).count v = (depsOf tasks v).count u)
    {u : Nat} {rest P : List Nat} {deg : Nat → Int}
    (hinv : KahnInv tasks ⟨u :: rest, P, deg⟩) :
    KahnInv tasks ⟨(processNeighbors (adjm u) deg rest).2, P ++ [u],
                   (processNeighbors (adjm u) deg rest).1⟩ := by
  obtain ⟨hdeg, hnodup, hpop_sub, hq_sub, hzero, hcyc⟩ := hinv
  simp only at hdeg hnodup hpop_sub hq_sub hzero hcyc
  have huq : u ∈ u :: rest := List.mem_cons_self u rest
  have huid : u ∈ tasks.map Task.id := hq_sub u huq
  have hPco : ∀ v ∈ P, v ∉ (u :: rest) := by
    intro v hv hvq
    rw [List.nodup_append] at hnodup
    exact hnodup.2.2 hv hvq
  have huP : u ∉ P := fun h => hPco u h huq
  have hrest_nd : rest.Nodup := by
    rw [List.nodup_append, List.nodup_cons] at hnodup
    exact hnodup.2.1.2
  have huRest : u ∉ rest := by
    rw [List.nodup_append, List.nodup_cons] at hnodup
    exact hnodup.2.1.1
  have hQz : ∀ v ∈ rest, deg v ≤ 0 := by
    intro v hv
    have hvq : v ∈ u :: rest := List.mem_cons_of_mem u hv
    have : degOf tasks P v = 0 :=
      (hzero v (hq_sub v hvq)).2 (Or.inr hvq)
    rw [hdeg v, this]
    norm_num
  obtain ⟨hs1, hs2, hs3, hs4⟩ := processNeighbors_spec (adjm u) deg rest hrest_nd hQz
  -- the new degree function coincides with degOf for the extended pop list
  have hdeg' : ∀ v, (processNeighbors (adjm u) deg rest).1 v =
      (degOf tasks (P ++ [u]) v : Int) := by
    intro v
    rw [hs1 v, hdeg v, hAdj u v]
    have := @degOf_append tasks P u huP v
    omega
  -- a node freshly pushed was not yet popped or queued
  have hpush : ∀ v, v ∈ (processNeighbors (adjm u) deg rest).2 → v ∉ rest →
      v ∈ tasks.map Task.id ∧ v ∉ P ∧ v ∉ (u :: rest) := by
    intro v hv hvr
    rcases (hs4 v).1 hv with hvr' | ⟨h1, h2⟩
    · exact absurd hvr' hvr
    · have hcnt : 0 < (depsOf tasks v).count u := by
        have := hAdj u v
        omega
      have hvdeps : depsOf tasks v ≠ [] := by
        intro hnil
        rw [hnil] at hcnt
        simp at hcnt
      have hvid : v ∈ tasks.map Task.id := depsOf_ne_nil_mem_ids hvdeps
      have hdegpos : 0 < degOf tasks P v := by
        rw [hdeg v] at h1
        omega
      have hvP : v ∉ P ∧ v ∉ (u :: rest) := by
        have := (hzero v hvid)
        constructor
        · intro hvP
          have : degOf tasks P v = 0 := (hzero v hvid).2 (Or.inl hvP)
          omega
        · intro hvq
          have : degOf tasks P v = 0 := (hzero v hvid).2 (Or.inr hvq)
          omega
      exact ⟨hvid, hvP.1, hvP.2⟩
  refine ⟨fun v => hdeg' v, ?_, ?_, ?_, ?_, ?_⟩
  · -- Nodup of (P ++ [u]) ++ queue'
    rw [List.nodup_append]
    refine ⟨?_, hs2, ?_⟩
    · rw [List.nodup_append]
      refine ⟨(List.nodup_append.1 hnodup).1, List.nodup_singleton u, ?_⟩
      intro v hv hveq
      rw [List.mem_singleton] at hveq
      exact huP (hveq ▸ hv)
    · intro v hv hv2
      rcases List.mem_append.1 hv with hvP | hvu
      · rcases (hs4 v).1 hv2 with hvr | ⟨h1, h2⟩
        · exact hPco v hvP (List.mem_cons_of_mem u hvr)
        · exact (hpush v hv2 (fun hvr => hPco v hvP (List.mem_cons_of_mem u hvr))).2.1 hvP
      · rw [List.mem_singleton] at hvu
        subst hvu
        rcases (hs4 v).1 hv2 with hvr | ⟨h1, h2⟩
        · exact huRest hvr
        · have : degOf tasks P v = 0 := (hzero v huid).2 (Or.inr huq)
          rw [hdeg v] at h1
          omega
  · intro v hv
    rcases List.mem_append.1 hv with hvP | hvu
    · exact hpop_sub v hvP
    · rw [List.mem_singleton] at hvu
      exact hvu ▸ huid
  · intro v hv
    by_cases hvr : v ∈ rest
    · exact hq_sub v (List.mem_cons_of_mem u hvr)
    · exact (hpush v hv hvr).1
  · intro v hvid
    dsimp only
    constructor
    · intro hz
      by_cases hz0 : degOf tasks P v = 0
      · rcases (hzero v hvid).1 hz0 with hvP | hvq
        · exact Or.inl (List.mem_append.2 (Or.inl hvP))
        · rcases List.mem_cons.1 hvq with rfl | hvr
          · exact Or.inl (List.mem_append.2 (Or.inr (List.mem_singleton.2 rfl)))
          · exact Or.inr ((hs4 v).2 (Or.inl hvr))
      · -- degree dropped to zero in this step: the node was pushed
        have hstep := @degOf_append tasks P u huP v
        have h1 : 1 ≤ deg v := by
          rw [hdeg v]
          omega
        have h2 : deg v ≤ ((adjm u).count v : Int) := by
          rw [hAdj u v, hdeg v]
          omega
        exact Or.inr ((hs4 v).2 (Or.inr ⟨h1, h2⟩))
    · intro hmem
      have hle : degOf tasks (P ++ [u]) v ≤ degOf tasks P v :=
        degOf_anti (List.subset_append_left P [u]) v
      rcases hmem with hvP | hvq
      · rcases List.mem_append.1 hvP with hvP | hvu
        · have : degOf tasks P v = 0 := (hzero v hvid).2 (Or.inl hvP)
          omega
        · rw [List.mem_singleton] at hvu
          subst hvu
          have : degOf tasks P v = 0 := (hzero v hvid).2 (Or.inr huq)
          omega
      · have := hs3 v hvq
        rw [hdeg' v] at this
        omega
  · intro v hv
    dsimp only
    obtain ⟨hvP, hvq⟩ := hcyc v hv
    have hvne : v ∉ P ++ [u] := by
      intro hmem
      rcases List.mem_append.1 hmem with h | h
      · exact hvP h
      · rw [List.mem_singleton] at h
        exact hvq (h ▸ huq)
    refine ⟨hvne, ?_⟩
    intro hvq'
    rcases (hs4 v).1 hvq' with hvr | ⟨h1, h2⟩
    · exact hvq (List.mem_cons_of_mem u hvr)
    · -- a cyclic node keeps a not-popped cyclic dependency, so its degree
      -- stays positive and it can never be pushed
      obtain ⟨w, hwcyc, hwedge⟩ := cyclic_rotate hv
      obtain ⟨hwP, hwq⟩ := hcyc w hwcyc
      have hwdep : w ∈ depsOf tasks v := DepEdge_mem_depsOf hnd hwedge
      have hwPu : w ∉ P ++ [u] := by
        intro hmem
        rcases List.mem_append.1 hmem with h | h
        · exact hwP h
        · rw [List.mem_singleton] at h
          exact hwq (h ▸ huq)
      have hpos : 0 < degOf tasks (P ++ [u]) v := degOf_pos_of_dep hwdep hwPu
      have := hs3 v hvq'
      rw [hdeg' v] at this
      omega

lemma kahnRun_spec {tasks : List Task} {adjm : Nat → List Nat}
    (hnd : (tasks.map Task.id).Nodup)
    (hAdj : ∀ u v, (adjm u).count v = (depsOf tasks v).count u) :
    ∀ (fuel : Nat) (s : KahnState), KahnInv tasks s →
      tasks.length < s.popped.length + fuel →
      KahnInv tasks (kahnRun adjm fuel s) ∧ (kahnRun adjm fuel s).queue = [] := by
  intro fuel
  induction fuel with
  | zero =>
    intro s hinv hlen
    exfalso
    have hnodupP : s.popped.Nodup := (List.nodup_append.1 hinv.hnodup).1
    have := nodup_subset_length_le hnodupP hinv.hpop_sub
    rw [List.length_map] at this
    omega
  | succ fuel ih =>
    intro s hinv hlen
    rw [kahnRun]
    cases hq : s.queue with
    | nil =>
      have : s = ⟨[], s.popped, s.deg⟩ := by
        cases s
        simp_all
      rw [← hq]
      cases s
      simp only at hq
      subst hq
      exact ⟨hinv, rfl⟩
    | cons u rest =>
      have hinv' : KahnInv tasks ⟨u :: rest, s.popped, s.deg⟩ := by
        cases s
        simp only at hq
        subst hq
        exact hinv
      have hstep := kahnStep_inv hnd hAdj hinv'
      have hlen' : tasks.length <
          (s.popped ++ [u]).length + fuel := by
        rw [List.length_append]
        simp only [List.length_singleton]
        omega
      exact ih _ hstep hlen'

lemma kahnInit_inv {tasks : List Task}
    (hnd : (tasks.map Task.id).Nodup)
    (deg0 : Nat → Int)
    (hdeg0 : ∀ v, deg0 v = ((depsOf tasks v).length : Int)) :
    KahnInv tasks ⟨(tasks.map Task.id).filter (fun i => deg0 i = 0), [], deg0⟩ := by
  have hdegOf : ∀ v, degOf tasks [] v = (depsOf tasks v).length := by
    intro v
    unfold degOf
    congr 1
    rw [List.filter_eq_self]
    intro d _
    simp
  refine ⟨?_, ?_, ?_, ?_, ?_, ?_⟩
  · intro v
    dsimp only
    rw [hdeg0 v, hdegOf v]
  · dsimp only
    rw [List.nil_append]
    exact hnd.filter _
  · intro v hv
    cases hv
  · intro v hv
    dsimp only at hv
    exact (List.mem_filter.1 hv).1
  · intro v hvid
    dsimp only
    rw [hdegOf v]
    constructor
    · intro hz
      refine Or.inr (List.mem_filter.2 ⟨hvid, ?_⟩)
      rw [hdeg0 v]
      simp [hz]
    · rintro (h | h)
      · cases h
      · have := (List.mem_filter.1 h).2
        rw [hdeg0 v] at this
        simp only [decide_eq_true_eq] at this
        omega
  · intro v hv
    dsimp only
    constructor
    · intro h
      cases h
    intro hmem
    obtain ⟨w, hwcyc, hwedge⟩ := cyclic_rotate hv
    have hwdep : w ∈ depsOf tasks v := DepEdge_mem_depsOf hnd hwedge
    have hpos : 0 < (depsOf tasks v).length := by
      rw [List.length_pos]
      intro hnil
      rw [hnil] at hwdep
      cases hwdep
    have := (List.mem_filter.1 hmem).2
    rw [hdeg0 v] at this
    simp only [decide_eq_true_eq] at this
    omega

lemma kahnFinal_spec {tasks : List Task}
    (hnd : (tasks.map Task.id).Nodup)
    (hdeps : ∀ t ∈ tasks, ∀ d ∈ t.dependsOn, d ∈ tasks.map Task.id) :
    KahnInv tasks (kahnFinal tasks) ∧ (kahnFinal tasks).queue = [] ∧
    validateDAG tasks =
      (if (kahnFinal tasks).popped.length = tasks.length then .ok ()
       else .error (cycleMsg (cycleCandidates tasks))) := by
  obtain ⟨pair, hok, hdeg0, hadj0⟩ := build_spec hnd hdeps
  have hAdj : ∀ u v, (pair.2 u).count v = (depsOf tasks v).count u := hadj0
  have hfinal : kahnFinal tasks =
      kahnRun pair.2 (tasks.length + 1)
        ⟨(tasks.map Task.id).filter (fun i => pair.1 i = 0), [], pair.1⟩ := by
    unfold kahnFinal
    dsimp only
    rw [hok]
  have hinit := kahnInit_inv hnd pair.1 hdeg0
  have hrun := kahnRun_spec hnd hAdj (tasks.length + 1)
    ⟨(tasks.map Task.id).filter (fun i => pair.1 i = 0), [], pair.1⟩
    hinit (by simp)
  refine ⟨by rw [hfinal]; exact hrun.1, by rw [hfinal]; exact hrun.2, ?_⟩
  unfold validateDAG cycleCandidates
  dsimp only
  rw [hok]
  dsimp only
  rw [← hfinal]

lemma popped_all_of_length_eq {tasks : List Task}
    (hnd : (tasks.map Task.id).Nodup)
    (hinv : KahnInv tasks (kahnFinal tasks))
    (hlen : (kahnFinal tasks).popped.length = tasks.length) :
    ∀ v ∈ tasks.map Task.id, v ∈ (kahnFinal tasks).popped := by
  have hnodupP : (kahnFinal tasks).popped.Nodup :=
    (List.nodup_append.1 hinv.hnodup).1
  refine subset_of_nodup_subset_length_eq hnodupP hnd hinv.hpop_sub ?_
  rw [List.length_map, hlen]

lemma validateDAG_acyclic_of_ok {tasks : List Task}
    (hnd : (tasks.map Task.id).Nodup)
    (hdeps : ∀ t ∈ tasks, ∀ d ∈ t.dependsOn, d ∈ tasks.map Task.id)
    (hok : validateDAG tasks = .ok ()) : ¬ HasCycle tasks := by
  obtain ⟨hinv, hqe, heq⟩ := kahnFinal_spec hnd hdeps
  rw [heq] at hok
  by_cases hlen : (kahnFinal tasks).popped.length = tasks.length
  · rintro ⟨v, hv⟩
    have hvP := (hinv.hcyc v hv).1
    exact hvP (popped_all_of_length_eq hnd hinv hlen v (cyclic_mem_ids hv))
  · rw [if_neg hlen] at hok
    cases hok

lemma validateDAG_ok_of_acyclic {tasks : List Task}
    (hnd : (tasks.map Task.id).Nodup)
    (hdeps : ∀ t ∈ tasks, ∀ d ∈ t.dependsOn, d ∈ tasks.map Task.id)
    (hacyc : ¬ HasCycle tasks) : validateDAG tasks = .ok () := by
  obtain ⟨hinv, hqe, heq⟩ := kahnFinal_spec hnd hdeps
  rw [heq]
  by_cases hlen : (kahnFinal tasks).popped.length = tasks.length
  · rw [if_pos hlen]
  · exfalso
    apply hacyc
    set S := (tasks.map Task.id).filter
      (fun v => v ∉ (kahnFinal tasks).popped) with hS
    have hSne : S ≠ [] := by
      intro hnil
      rw [hS, List.filter_eq_nil_iff] at hnil
      have hsub : tasks.map Task.id ⊆ (kahnFinal tasks).popped := by
        intro v hv
        have := hnil v hv
        simpa using this
      have h1 := nodup_subset_length_le hnd hsub
      have h2 := nodup_subset_length_le
        (List.nodup_append.1 hinv.hnodup).1 hinv.hpop_sub
      rw [List.length_map] at h1 h2
      omega
    refine exists_cycle_of_all_have_pred hSne ?_
    intro v hv
    rw [hS, List.mem_filter] at hv
    obtain ⟨hvid, hvP⟩ := hv
    rw [decide_eq_true_eq] at hvP
    have hdz : degOf tasks (kahnFinal tasks).popped v ≠ 0 := by
      intro h0
      rcases (hinv.hzero v hvid).1 h0 with h | h
      · exact hvP h
      · rw [hqe] at h
        cases h
    have hex : ∃ d ∈ depsOf tasks v, d ∉ (kahnFinal tasks).popped := by
      by_contra hall
      push_neg at hall
      apply hdz
      unfold degOf
      rw [List.length_eq_zero]
      rw [List.filter_eq_nil_iff]
      intro d hd
      simp only [decide_eq_true_eq, Decidable.not_not]
      exact hall d hd
    obtain ⟨d, hd, hdP⟩ := hex
    have hedge : DepEdge tasks d v := mem_depsOf_DepEdge hd
    have hdid : d ∈ tasks.map Task.id := by
      obtain ⟨t, ht, htid, hdt⟩ := hedge
      exact hdeps t ht d hdt
    refine ⟨d, ?_, hedge⟩
    rw [hS, List.mem_filter]
    exact ⟨hdid, by simpa using hdP⟩

lemma validateDAG_cycle {tasks : List Task}
    (hnd : (tasks.map Task.id).Nodup)
    (hdeps : ∀ t ∈ tasks, ∀ d ∈ t.dependsOn, d ∈ tasks.map Task.id)
    (hcyc : HasCycle tasks) :
    validateDAG tasks = .error (cycleMsg (cycleCandidates tasks)) ∧
    cycleCandidates tasks =
      (tasks.filter (fun t => t.id ∉ (kahnFinal tasks).popped)).map Task.id ∧
    cycleCandidates tasks ≠ [] := by
  obtain ⟨hinv, hqe, heq⟩ := kahnFinal_spec hnd hdeps
  obtain ⟨v, hv⟩ := hcyc
  have hvid := cyclic_mem_ids hv
  have hvP := (hinv.hcyc v hv).1
  have hlen : (kahnFinal tasks).popped.length ≠ tasks.length := by
    intro h
    exact hvP (popped_all_of_length_eq hnd hinv h v hvid)
  have hpredeq : ∀ t ∈ tasks,
      (decide (0 < (kahnFinal tasks).deg t.id)) =
        (decide (t.id ∉ (kahnFinal tasks).popped)) := by
    intro t ht
    have htid : t.id ∈ tasks.map Task.id := List.mem_map_of_mem Task.id ht
    have hz := hinv.hzero t.id htid
    rw [hqe] at hz
    simp only [List.not_mem_nil, or_false] at hz
    rw [hinv.hdeg t.id]
    by_cases hP : t.id ∈ (kahnFinal tasks).popped
    · have : degOf tasks (kahnFinal tasks).popped t.id = 0 := hz.2 hP
      simp [this, hP]
    · have : degOf tasks (kahnFinal tasks).popped t.id ≠ 0 := fun h => hP (hz.1 h)
      have hpos : 0 < degOf tasks (kahnFinal tasks).popped t.id := by omega
      simp [hP, hpos, Int.natCast_pos]
  have hcand : cycleCandidates tasks =
      (tasks.filter (fun t => t.id ∉ (kahnFinal tasks).popped)).map Task.id := by
    unfold cycleCandidates
    exact congrArg (List.map Task.id) (List.filter_congr hpredeq)
  refine ⟨?_, hcand, ?_⟩
  · rw [heq, if_neg hlen]
  · obtain ⟨t, ht, htid⟩ := List.mem_map.1 hvid
    have htf : t ∈ tasks.filter (fun u => u.id ∉ (kahnFinal tasks).popped) := by
      rw [List.mem_filter]
      refine ⟨ht, ?_⟩
      rw [htid]
      simpa using hvP
    rw [hcand]
    exact List.ne_nil_of_mem (List.mem_map_of_mem Task.id htf)

lemma ingestLoop1_WF :
    ∀ (items : List PlanItem) (g : TaskGraph) (m : List (Int × Nat)),
      (∀ t ∈ g.tasks, t.id < g.nextTaskId) →
      (g.tasks.map Task.id).Nodup →
      (∀ p ∈ m, p.2 ∈ g.tasks.map Task.id) →
      (∀ t ∈ g.tasks, t.description ≠ "") →
      (∀ t ∈ g.tasks, t.dependsOn = []) →
      (∀ t ∈ (ingestLoop1 items g m).1.tasks,
          t.id < (ingestLoop1 items g m).1.nextTaskId) ∧
      ((ingestLoop1 items g m).1.tasks.map Task.id).Nodup ∧
      (∀ p ∈ (ingestLoop1 items g m).2,
          p.2 ∈ (ingestLoop1 items g m).1.tasks.map Task.id) ∧
      (∀ t ∈ (ingestLoop1 items g m).1.tasks, t.description ≠ "") ∧
      (∀ t ∈ (ingestLoop1 items g m).1.tasks, t.dependsOn = []) := by
  intro items
  induction items with
  | nil =>
    intro g m h1 h2 h3 h4 h5
    exact ⟨h1, h2, h3, h4, h5⟩
  | cons item rest ih =>
    intro g m h1 h2 h3 h4 h5
    obtain ⟨iid, idesc, ideps⟩ := item
    cases iid with
    | num n =>
      cases idesc with
      | str s =>
        cases ideps with
        | arr deps =>
          by_cases hval : 1 ≤ n ∧ jsTrim s ≠ ""
          · by_cases hdup : m.any (fun p => p.1 = n)
            · simp only [ingestLoop1, if_pos hval, if_pos hdup]
              exact ih g m h1 h2 h3 h4 h5
            · simp only [ingestLoop1, if_pos hval, if_neg hdup]
              refine ih _ _ ?_ ?_ ?_ ?_ ?_
              · intro t ht
                simp only [TaskGraph.addTask, List.mem_append,
                  List.mem_singleton] at ht ⊢
                rcases ht with ht | ht
                · have := h1 t ht
                  omega
                · subst ht
                  simp
              · simp only [TaskGraph.addTask, List.map_append, List.map_cons,
                  List.map_nil]
                rw [List.nodup_append]
                refine ⟨h2, List.nodup_singleton _, ?_⟩
                intro v hv hv2
                rw [List.mem_singleton] at hv2
                subst hv2
                obtain ⟨t, ht, htid⟩ := List.mem_map.1 hv
                have := h1 t ht
                omega
              · intro p hp
                simp only [TaskGraph.addTask, List.map_append, List.map_cons,
                  List.map_nil, List.mem_append, List.mem_singleton]
                rcases List.mem_append.1 hp with hp | hp
                · exact Or.inl (h3 p hp)
                · rw [List.mem_singleton] at hp
                  subst hp
                  exact Or.inr rfl
              · intro t ht
                simp only [TaskGraph.addTask, List.mem_append,
                  List.mem_singleton] at ht
                rcases ht with ht | ht
                · exact h4 t ht
                · subst ht
                  exact hval.2
              · intro t ht
                simp only [TaskGraph.addTask, List.mem_append,
                  List.mem_singleton] at ht
                rcases ht with ht | ht
                · exact h5 t ht
                · subst ht
                  rfl
          · simp only [ingestLoop1, if_neg hval]
            exact ih g m h1 h2 h3 h4 h5
        | num k =>
          simp only [ingestLoop1]
          exact ih g m h1 h2 h3 h4 h5
        | str k =>
          simp only [ingestLoop1]
          exact ih g m h1 h2 h3 h4 h5
        | null =>
          simp only [ingestLoop1]
          exact ih g m h1 h2 h3 h4 h5
      | num k =>
        simp only [ingestLoop1]
        exact ih g m h1 h2 h3 h4 h5
      | arr k =>
        simp only [ingestLoop1]
        exact ih g m h1 h2 h3 h4 h5
      | null =>
        simp only [ingestLoop1]
        exact ih g m h1 h2 h3 h4 h5
    | str k =>
      simp only [ingestLoop1]
      exact ih g m h1 h2 h3 h4 h5
    | arr k =>
      simp only [ingestLoop1]
      exact ih g m h1 h2 h3 h4 h5
    | null =>
      simp only [ingestLoop1]
      exact ih g m h1 h2 h3 h4 h5

lemma resolveDeps_sub (m : List (Int × Nat)) (deps : List JAtom) :
    ∀ d ∈ resolveDeps m deps, ∃ p ∈ m, p.2 = d := by
  intro d hd
  unfold resolveDeps at hd
  obtain ⟨a, ha, hmap⟩ := List.mem_filterMap.1 hd
  cases a with
  | num dn =>
    simp only [Option.map_eq_some'] at hmap
    obtain ⟨p, hfind, hp2⟩ := hmap
    exact ⟨p, List.mem_of_find?_eq_some hfind, hp2⟩
  | notNum => cases hmap

lemma setDependsOn_ids (g : TaskGraph) (i : Nat) (ds : List Nat) :
    (setDependsOn g i ds).tasks.map Task.id = g.tasks.map Task.id := by
  unfold setDependsOn
  rw [List.map_map]
  refine List.map_congr_left fun t _ => ?_
  by_cases ht : t.id = i <;> simp [ht, Function.comp]

lemma setDependsOn_mem {g : TaskGraph} {i : Nat} {ds : List Nat} {t : Task}
    (ht : t ∈ (setDependsOn g i ds).tasks) :
    t ∈ g.tasks ∨ ∃ u ∈ g.tasks, t = { u with dependsOn := ds } := by
  unfold setDependsOn at ht
  obtain ⟨u, hu, heq⟩ := List.mem_map.1 ht
  by_cases hui : u.id = i
  · right
    refine ⟨u, hu, ?_⟩
    rw [← heq]
    simp [hui]
  · left
    rw [← heq]
    simp [hui]
    exact hu

lemma ingestLoop2_WF :
    ∀ (items : List PlanItem) (m : List (Int × Nat)) (g : TaskGraph),
      (∀ p ∈ m, p.2 ∈ g.tasks.map Task.id) →
      (∀ t ∈ g.tasks, ∀ d ∈ t.dependsOn, d ∈ g.tasks.map Task.id) →
      (∀ t ∈ g.tasks, t.description ≠ "") →
      (g.tasks.map Task.id).Nodup →
      ((ingestLoop2 items m g).tasks.map Task.id = g.tasks.map Task.id) ∧
      (∀ t ∈ (ingestLoop2 items m g).tasks, ∀ d ∈ t.dependsOn,
        d ∈ (ingestLoop2 items m g).tasks.map Task.id) ∧
      (∀ t ∈ (ingestLoop2 items m g).tasks, t.description ≠ "") ∧
      ((ingestLoop2 items m g).tasks.map Task.id).Nodup := by
  intro items
  induction items with
  | nil =>
    intro m g h1 h2 h3 h4
    exact ⟨rfl, h2, h3, h4⟩
  | cons item rest ih =>
    intro m g h1 h2 h3 h4
    obtain ⟨iid, idesc, ideps⟩ := item
    cases iid with
    | num n =>
      cases hfind : m.find? (fun p => p.1 = n) with
      | some p =>
        cases ideps with
        | arr deps =>
          by_cases hne : resolveDeps m deps ≠ []
          · have hstep : ingestLoop2 (⟨.num n, idesc, .arr deps⟩ :: rest) m g =
                ingestLoop2 rest m (setDependsOn g p.2 (resolveDeps m deps)) := by
              simp only [ingestLoop2, hfind]
              rw [if_pos hne]
            rw [hstep]
            have hids := setDependsOn_ids g p.2 (resolveDeps m deps)
            have k1 : ∀ q ∈ m, q.2 ∈ (setDependsOn g p.2 (resolveDeps m deps)).tasks.map Task.id := by
              intro q hq
              rw [hids]
              exact h1 q hq
            have k2 : ∀ t ∈ (setDependsOn g p.2 (resolveDeps m deps)).tasks,
                ∀ d ∈ t.dependsOn,
                  d ∈ (setDependsOn g p.2 (resolveDeps m deps)).tasks.map Task.id := by
              intro t ht d hd
              rw [hids]
              rcases setDependsOn_mem ht with ht' | ⟨u, hu, heq⟩
              · exact h2 t ht' d hd
              · subst heq
                simp only at hd
                obtain ⟨q, hq, hq2⟩ := resolveDeps_sub m deps d hd
                exact hq2 ▸ h1 q hq
            have k3 : ∀ t ∈ (setDependsOn g p.2 (resolveDeps m deps)).tasks,
                t.description ≠ "" := by
              intro t ht
              rcases setDependsOn_mem ht with ht' | ⟨u, hu, heq⟩
              · exact h3 t ht'
              · subst heq
                exact h3 u hu
            have k4 : ((setDependsOn g p.2 (resolveDeps m deps)).tasks.map Task.id).Nodup := by
              rw [hids]
              exact h4
            obtain ⟨c1, c2, c3, c4⟩ := ih m _ k1 k2 k3 k4
            exact ⟨by rw [c1, hids], c2, c3, c4⟩
          · have hstep : ingestLoop2 (⟨.num n, idesc, .arr deps⟩ :: rest) m g =
                ingestLoop2 rest m g := by
              simp only [ingestLoop2, hfind]
              rw [if_neg hne]
            rw [hstep]
            exact ih m g h1 h2 h3 h4
        | num k =>
          simp only [ingestLoop2, hfind]
          exact ih m g h1 h2 h3 h4
        | str k =>
          simp only [ingestLoop2, hfind]
          exact ih m g h1 h2 h3 h4
        | null =>
          simp only [ingestLoop2, hfind]
          exact ih m g h1 h2 h3 h4
      | none =>
        simp only [ingestLoop2, hfind]
        exact ih m g h1 h2 h3 h4
    | str k =>
      simp only [ingestLoop2]
      exact ih m g h1 h2 h3 h4
    | arr k =>
      simp only [ingestLoop2]
      exact ih m g h1 h2 h3 h4
    | null =>
      simp only [ingestLoop2]
      exact ih m g h1 h2 h3 h4

lemma ingest_WF (items : List PlanItem) : GraphWF (ingest items) := by
  have h0 := ingestLoop1_WF items TaskGraph.empty []
    (by intro t ht; cases ht) (by simp [TaskGraph.empty])
    (by intro p hp; cases hp) (by intro t ht; cases ht) (by intro t ht; cases ht)
  obtain ⟨w1, w2, w3, w4, w5⟩ := h0
  have h2' : ∀ t ∈ (ingestLoop1 items TaskGraph.empty []).1.tasks,
      ∀ d ∈ t.dependsOn,
        d ∈ (ingestLoop1 items TaskGraph.empty []).1.tasks.map Task.id := by
    intro t ht d hd
    rw [w5 t ht] at hd
    cases hd
  obtain ⟨c1, c2, c3, c4⟩ := ingestLoop2_WF items
    (ingestLoop1 items TaskGraph.empty []).2
    (ingestLoop1 items TaskGraph.empty []).1 w3 h2' w4 w2
  exact ⟨c4, c2, c3⟩

lemma addEdges_err (ids : List Nat) :
    ∀ (ts : List Task) (deg : Nat → Int) (adj : Nat → List Nat),
      ¬(∀ t ∈ ts, ∀ d ∈ t.dependsOn, d ∈ ids) →
      ∃ t ∈ ts, ∃ d ∈ t.dependsOn, d ∉ ids ∧
        addEdges ids ts deg adj = .error (invalidDepMsg t.id d) := by
  intro ts
  induction ts with
  | nil => intro deg adj h; exact absurd (by simp) h
  | cons t rest ih =>
    intro deg adj h
    by_cases hhead : ∀ d ∈ t.dependsOn, d ∈ ids
    · obtain ⟨pair, hok, -, -⟩ := addTaskEdges_ok ids t.id t.dependsOn deg adj hhead
      have hrest : ¬(∀ u ∈ rest, ∀ d ∈ u.dependsOn, d ∈ ids) := by
        intro hall
        exact h (fun u hu => by
          rcases List.mem_cons.1 hu with rfl | hm
          · exact hhead
          · exact hall u hm)
      obtain ⟨u, hu, d, hd, hdn, herr⟩ := ih pair.1 pair.2 hrest
      refine ⟨u, List.mem_cons_of_mem t hu, d, hd, hdn, ?_⟩
      unfold addEdges
      rw [hok]
      exact herr
    · obtain ⟨d, hd, hdn, herr⟩ := addTaskEdges_err ids t.id t.dependsOn deg adj hhead
      refine ⟨t, List.mem_cons_self t rest, d, hd, hdn, ?_⟩
      unfold addEdges
      rw [herr]

lemma validateDAG_missing_dep {tasks : List Task}
    (h : ¬(∀ t ∈ tasks, ∀ d ∈ t.dependsOn, d ∈ tasks.map Task.id)) :
    ∃ t ∈ tasks, ∃ d ∈ t.dependsOn, d ∉ tasks.map Task.id ∧
      validateDAG tasks = .error (invalidDepMsg t.id d) := by
  obtain ⟨t, ht, d, hd, hdn, herr⟩ :=
    addEdges_err (tasks.map Task.id) tasks (fun _ => 0) (fun _ => []) h
  refine ⟨t, ht, d, hd, hdn, ?_⟩
  unfold validateDAG
  dsimp only
  rw [herr]

lemma parsePlan_cases (items : List PlanItem) :
    (parsePlan items = .ok (ingest items) ∧ (ingest items).tasks.length ≠ 0 ∧
      validateDAG (ingest items).tasks = .ok ()) ∨
    (parsePlan items = .error noTasksMsg ∧ (ingest items).tasks.length = 0) ∨
    (HasCycle (ingest items).tasks ∧
      parsePlan items = .error ("Invalid task plan: " ++
        cycleMsg (cycleCandidates (ingest items).tasks))) := by
  obtain ⟨hnd, hdeps, hdesc⟩ := ingest_WF items
  by_cases hcyc : HasCycle (ingest items).tasks
  · right; right
    refine ⟨hcyc, ?_⟩
    obtain ⟨herr, -, -⟩ := validateDAG_cycle hnd hdeps hcyc
    unfold parsePlan
    dsimp only
    rw [herr]
  · have hok := validateDAG_ok_of_acyclic hnd hdeps hcyc
    by_cases hlen : (ingest items).tasks.length = 0
    · right; left
      refine ⟨?_, hlen⟩
      unfold parsePlan
      dsimp only
      rw [hok]
      dsimp only
      rw [if_pos hlen]
    · left
      refine ⟨?_, hlen, hok⟩
      unfold parsePlan
      dsimp only
      rw [hok]
      dsimp only
      rw [if_neg hlen]

lemma cycle_pipeline {items : List PlanItem}
    (hcyc : HasCycle (ingest items).tasks) (exec : Executor) (fuel : Nat) :
    runObjective exec fuel items = .error ("Invalid task plan: " ++
      cycleMsg (cycleCandidates (ingest items).tasks)) ∧
    objectiveDispatchCount exec fuel items = 0 := by
  rcases parsePlan_cases items with ⟨-, -, hok⟩ | ⟨-, hlen⟩ | ⟨-, herr⟩
  · obtain ⟨hnd, hdeps, -⟩ := ingest_WF items
    obtain ⟨herr, -, -⟩ := validateDAG_cycle hnd hdeps hcyc
    rw [herr] at hok
    cases hok
  · exfalso
    obtain ⟨v, hv⟩ := hcyc
    have hvid := cyclic_mem_ids hv
    rw [List.length_eq_zero] at hlen
    rw [hlen] at hvid
    cases hvid
  · constructor
    · unfold runObjective
      rw [herr]
    · unfold objectiveDispatchCount runObjective
      rw [herr]

/-- C5 counterexample: with T2 depending on the permanently failing T1,
the execution loop does not reach a terminal state silently — it ends by
raising the stuck-execution error (`stuckAbort`) after two dispatches of
T1 and four backoff waits. -/
theorem claim5_counterexample :
    executeTasks alwaysFailExec 20 exGraphChain 0 0 =
      (.stuckAbort gChainFinal,
       [.dispatched 1, .dispatched 1, .waitedStuck 4000, .waitedStuck 6000,
        .waitedStuck 8000, .waitedStuck 10000]) := by decide

/-- C5 (amended): in the run where T1 always fails and T2 depends on it,
T1 ends `failed` after exactly 2 attempts (retries = 4), T2 never leaves
`pending` and is never dispatched, and the loop terminates in bounded
time — but by throwing the stuck-execution error, which the run entry
point reports as `orchestrationFailed`, not by returning normally. -/
theorem claim5_failed_dependency_run :
    (executeTasks alwaysFailExec 20 exGraphChain 0 0).1 = .stuckAbort gChainFinal ∧
    ((gChainFinal.getTask 1).map Task.status = some .failed ∧
     (gChainFinal.getTask 1).map Task.retries = some 4) ∧
    (gChainFinal.getTask 2).map Task.status = some .pending ∧
    dispatchCount (executeTasks alwaysFailExec 20 exGraphChain 0 0).2 = 2 ∧
    IterEvent.dispatched 2 ∉ (executeTasks alwaysFailExec 20 exGraphChain 0 0).2 := by
  decide

/-- C1 counterexample: on a single always-failing task the scheduler
performs 2 dispatches, not `maxRetries + 1 = 4` as the claim states, and
the run completes with the task left `failed` with `retries = 4`. -/
theorem claim1_counterexample :
    dispatchCount (executeTasks alwaysFailExec 10 exGraphSingle 0 0).2 = 2 ∧
    ¬ dispatchCount (executeTasks alwaysFailExec 10 exGraphSingle 0 0).2 =
        maxRetries + 1 ∧
    (executeTasks alwaysFailExec 10 exGraphSingle 0 0).1 =
      .completed { tasks := [{ id := 1, description := "t1", dependsOn := [],
                               status := .failed,
                               result := some (.res { success := false,
                                                      message := some "boom",
                                                      artifacts := none,
                                                      output := none }),
                               retries := 4 }],
                   nextTaskId := 2 } := by decide

/-- C7 counterexample: in the chain run the stuck phase is entered with
the counter already at 1 from the preceding task failure, so the loop
aborts after only 4 stuck waits, not 5. -/
theorem claim7_counterexample :
    (executeTasks alwaysFailExec 20 exGraphChain 0 0).1.isStuckAbort = true ∧
    stuckWaitCount (executeTasks alwaysFailExec 20 exGraphChain 0 0).2 = 4 ∧
    ¬ stuckWaitCount (executeTasks alwaysFailExec 20 exGraphChain 0 0).2 =
        MAX_CONSECUTIVE_FAILURES := by decide

/-- C7 (amended): whenever the ready set is empty, no task is in
progress and pending tasks remain, the loop sleeps with strictly
increasing backoff (2000 ms times the counter) and aborts with the stuck
error after exactly `5 - cf` waits, where `cf ≤ 5` is the current
consecutive-failures counter; this is 5 waits only when the counter is
zero on entering the stuck phase — task failures also raise it, so the
abort can come earlier. -/
theorem claim7_stuck_abort (g : TaskGraph) (exec : Executor) (cf n fuel : Nat)
    (hs : StuckState g) (h5 : cf ≤ MAX_CONSECUTIVE_FAILURES)
    (hf : MAX_CONSECUTIVE_FAILURES + 1 ≤ cf + fuel) :
    executeTasks exec fuel g cf n =
      (.stuckAbort g, (stuckWaits cf).map .waitedStuck) ∧
    (stuckWaits cf).Pairwise (· < ·) ∧
    (stuckWaits cf).length = MAX_CONSECUTIVE_FAILURES - cf := by
  refine ⟨stuck_run g hs exec fuel cf n h5 hf, ?_, ?_⟩
  · unfold stuckWaits
    refine List.Pairwise.map _ (fun a b hab => ?_) (List.pairwise_lt_range _)
    omega
  · unfold stuckWaits
    rw [List.length_map, List.length_range]
    rfl

/-- C7 witness: from a concrete stuck graph with counter 0 the loop
performs the five increasing waits and aborts. -/
theorem claim7_witness :
    StuckState gStuck ∧
    executeTasks alwaysFailExec 6 gStuck 0 0 =
      (.stuckAbort gStuck,
       [.waitedStuck 2000, .waitedStuck 4000, .waitedStuck 6000,
        .waitedStuck 8000, .waitedStuck 10000]) := by
  refine ⟨by decide, ?_⟩
  have h := (claim7_stuck_abort gStuck alwaysFailExec 0 0 6 (by decide)
    (by norm_num [MAX_CONSECUTIVE_FAILURES]) (by norm_num [MAX_CONSECUTIVE_FAILURES])).1
  rw [h]
  rfl

/-- C2: for every task graph (distinct ids, dependencies resolving inside
the graph), `validateDAG` succeeds exactly when the dependency relation is
acyclic; on a cyclic graph it fails with the error reporting exactly the
ids of tasks with nonzero in-degree after Kahn peeling (equivalently, the
un-peeled tasks), a nonempty candidate set; and a plan whose ingested graph
is cyclic makes the whole run fail during planning with zero executor
invocations. -/
theorem claim2_cycle_validation (tasks : List Task)
    (hnd : (tasks.map Task.id).Nodup)
    (hdeps : ∀ t ∈ tasks, ∀ d ∈ t.dependsOn, d ∈ tasks.map Task.id) :
    (validateDAG tasks = .ok () ↔ ¬ HasCycle tasks) ∧
    (HasCycle tasks →
      validateDAG tasks = .error (cycleMsg (cycleCandidates tasks)) ∧
      cycleCandidates tasks =
        (tasks.filter (fun t => t.id ∉ (kahnFinal tasks).popped)).map Task.id ∧
      cycleCandidates tasks ≠ []) ∧
    (∀ (exec : Executor) (fuel : Nat) (items : List PlanItem),
      HasCycle (ingest items).tasks →
      runObjective exec fuel items = .error ("Invalid task plan: " ++
        cycleMsg (cycleCandidates (ingest items).tasks)) ∧
      objectiveDispatchCount exec fuel items = 0) := by
  refine ⟨⟨validateDAG_acyclic_of_ok hnd hdeps, validateDAG_ok_of_acyclic hnd hdeps⟩,
    validateDAG_cycle hnd hdeps,
    fun exec fuel items hcyc => cycle_pipeline hcyc exec fuel⟩

/-- C2 witness: the validation theorem applied to a concrete 2-cycle
(reporting ids 1 and 2) and to a concrete acyclic chain. -/
theorem claim2_witness :
    validateDAG cycTasks = .error (cycleMsg [1, 2]) ∧
    validateDAG chainTasks = .ok () ∧ ¬ HasCycle chainTasks := by
  have h2 := claim2_cycle_validation cycTasks (by decide) (by decide)
  have hedge12 : DepEdge cycTasks 1 2 :=
    ⟨{ id := 2, description := "b", dependsOn := [1], status := .pending,
       result := none, retries := 0 }, by decide, rfl, by decide⟩
  have hedge21 : DepEdge cycTasks 2 1 :=
    ⟨{ id := 1, description := "a", dependsOn := [2], status := .pending,
       result := none, retries := 0 }, by decide, rfl, by decide⟩
  have hcyc : HasCycle cycTasks :=
    ⟨1, Relation.TransGen.tail (Relation.TransGen.single hedge12) hedge21⟩
  have herr := (h2.2.1 hcyc).1
  have hcand : cycleCandidates cycTasks = [1, 2] := by decide
  rw [hcand] at herr
  have h3 := claim2_cycle_validation chainTasks (by decide) (by decide)
  have hok : validateDAG chainTasks = .ok () := by decide
  exact ⟨herr, hok, h3.1.1 hok⟩

/-- C6 (amended): plan ingestion skips invalid task items and
dependencies referencing nonexistent tasks instead of failing; `parsePlan`
fails only when no valid task remains or the ingested graph is cyclic, and
every graph it returns is well-formed (distinct ids, all dependencies
resolving, nonempty descriptions) — so no graph containing an invalid item
is ever executed.  `validateDAG` itself does fail on a nonexistent
dependency, naming the offending task and dependency id, but `parsePlan`
never hands it such a graph. -/
theorem claim6_ingestion (items : List PlanItem) :
    (∀ g, parsePlan items = .ok g → g = ingest items ∧ GraphWF g) ∧
    (∀ e, parsePlan items = .error e →
      e = noTasksMsg ∨ ∃ l, e = "Invalid task plan: " ++ cycleMsg l) ∧
    (∀ tasks : List Task,
      ¬(∀ t ∈ tasks, ∀ d ∈ t.dependsOn, d ∈ tasks.map Task.id) →
      ∃ t ∈ tasks, ∃ d ∈ t.dependsOn, d ∉ tasks.map Task.id ∧
        validateDAG tasks = .error (invalidDepMsg t.id d)) := by
  refine ⟨?_, ?_, fun tasks h => validateDAG_missing_dep h⟩
  · intro g hg
    rcases parsePlan_cases items with ⟨hok, -, -⟩ | ⟨herr, -⟩ | ⟨-, herr⟩
    · rw [hok] at hg
      cases hg
      exact ⟨rfl, ingest_WF items⟩
    · rw [herr] at hg
      cases hg
    · rw [herr] at hg
      cases hg
  · intro e he
    rcases parsePlan_cases items with ⟨hok, -, -⟩ | ⟨herr, -⟩ | ⟨-, herr⟩
    · rw [hok] at he
      cases he
    · rw [herr] at he
      cases he
      exact Or.inl rfl
    · rw [herr] at he
      cases he
      exact Or.inr ⟨cycleCandidates (ingest items).tasks, rfl⟩

/-- C6 counterexample: a plan with a dependency on nonexistent id 99, an
empty description, a non-number id and non-array dependencies parses
successfully (the offending parts are skipped), contradicting the claimed
fatal failure. -/
theorem claim6_counterexample :
    parsePlan ex6Items = .ok ex6Graph ∧
    ¬ (parsePlan ex6Items).isOk = false := by decide

/-- C6 witness: the ingestion theorem applied to a concrete plan
containing an unresolvable dependency and three invalid items. -/
theorem claim6_witness :
    ex6Graph = ingest ex6Items ∧ GraphWF ex6Graph :=
  (claim6_ingestion ex6Items).1 ex6Graph (by decide)

/-- C9 (amended): two resource paths receive the same lock marker file
exactly when their sanitized forms (every character outside
`[a-zA-Z0-9_.-]` replaced by an underscore) coincide; the same path always
maps to the same marker, but the sanitization is not injective, so
distinct resources can share a marker and then block each other. -/
theorem claim9_lock_path (p q : String) :
    LockManager.getLockfilePath p = LockManager.getLockfilePath q ↔
      sanitizePath p = sanitizePath q := getLockfilePath_eq_iff p q

/-- C9 witness: the marker-equality characterization applied to the
colliding pair of paths. -/
theorem claim9_witness : sanitizePath "a/b" = sanitizePath "a_b" :=
  (claim9_lock_path "a/b" "a_b").1 (by decide)

/-- C9 counterexample: the distinct resource paths a/b and a_b map to
the same lock marker file, so locking is not independent across these two
distinct resources. -/
theorem claim9_counterexample :
    LockManager.getLockfilePath "a/b" = LockManager.getLockfilePath "a_b" ∧
    ("a/b" : String) ≠ "a_b" := by decide

/-- C10: `WorkerAgent.execute` never propagates an exception: a handler
throw is caught and converted into a `success = false` result carrying the
error message (or the fallback text for an empty message), and any
scheduler run driven by such a worker never reaches the fatal
`criticalAbort` (executor-raised) path. -/
theorem claim10_worker_no_escalation :
    (∀ e, WorkerAgent.execute (.error e) =
      { success := false,
        message := some (if e = "" then "Unknown error during task execution"
                         else e),
        artifacts := none, output := none }) ∧
    (∀ r, WorkerAgent.execute (.ok r) = r) ∧
    (∀ (handler : Nat → Task → Except String TaskResult) fuel g cf n,
      (executeTasks (workerExecutor handler) fuel g cf n).1.isCriticalAbort =
        false) := by
  exact ⟨fun e => rfl, fun r => rfl,
    fun handler fuel g cf n => worker_no_critical handler fuel g cf n⟩

/-- C1 witness: the retry-bound theorem evaluated on a concrete one-task
graph with a concrete always-failing executor. -/
theorem claim1_witness :
    executeTasks (fun n _ => .ok { success := false, message := some "boom",
                                   artifacts := none, output := none })
        10 (TaskGraph.empty.addTask "t1" []).2 0 0 =
      (.completed { tasks := [{ id := 1, description := "t1", dependsOn := [],
                                status := .failed,
                                result := some (.res { success := false,
                                                       message := some "boom",
                                                       artifacts := none,
                                                       output := none }),
                                retries := 4 }],
                    nextTaskId := 2 },
       [.dispatched 1, .dispatched 1]) :=
  (claim1_retry_bound "t1"
    (fun _ => { success := false, message := some "boom",
                artifacts := none, output := none })
    (fun _ => rfl) 10 (by norm_num)).1

/-- C3 witness: a fresh task shows `retries = 1` after first entering
`in_progress`. -/
theorem claim3_witness :
    (exGraphSingle.markStatus 1 .in_progress none).1 = true ∧
    (exGraphSingle.markStatus 1 .in_progress none).2.getTask 1 =
      some { id := 1, description := "t1", dependsOn := [],
             status := .in_progress, result := none, retries := 1 } := by
  have h := (claim3_markStatus exGraphSingle 1 .in_progress none).2
    { id := 1, description := "t1", dependsOn := [], status := .pending,
      result := none, retries := 0 } (by decide)
  refine ⟨h.1, ?_⟩
  rw [h.2.1]
  decide

/-- C4 witness: the dependency-free pending task of the one-task graph is
in the ready set. -/
theorem claim4_witness :
    { id := 1, description := "t1", dependsOn := [], status := .pending,
      result := none, retries := 0 } ∈ exGraphSingle.getNextTasks :=
  (claim4_ready_set exGraphSingle).2.2 _ (by decide) rfl rfl

/-- C8 witness: resetting the failed task of a concrete graph succeeds;
resetting an unknown id returns false and changes nothing. -/
theorem claim8_witness :
    (gStuck.resetTaskForRetry 1).1 = true ∧
    (gStuck.resetTaskForRetry 1).2.getTask 1 =
      some { id := 1, description := "t1", dependsOn := [],
             status := .pending, result := none, retries := 4 } ∧
    gStuck.resetTaskForRetry 99 = (false, gStuck) := by
  have h := (claim8_resetForRetry gStuck 1).1
    { id := 1, description := "t1", dependsOn := [], status := .failed,
      result := none, retries := 4 } (by decide) rfl
  refine ⟨h.1, ?_, (claim8_resetForRetry gStuck 99).2.2 (by decide)⟩
  rw [h.2.1]

end Nyx
